import Mathlib

/-!
Verification development for the SpeakNode repository.

Python strings are modelled as `List Char`; Python `float` time offsets,
similarity scores and embedding components are modelled as `ℚ`; Python
`None` is modelled with `Option`; Python exceptions are modelled with
`Except`.  Each definition is a shallow embedding of the correspondingly
named function of the source tree (file and line references are given in
the doc comments).  External collaborators (the Kuzu database engine, the
language model, the embedding provider) are modelled as parameters or as
the documented semantics of the single query the code issues to them.
-/

/-- Abbreviation turning a Lean string literal into the `List Char`
representation used for Python strings throughout this development. -/
def str (s : String) : List Char := s.data

/-- Python whitespace characters stripped by `str.strip()` (ASCII range). -/
def isPyWs (c : Char) : Bool :=
  c = ' ' || c = '\t' || c = '\n' || c = '\r' || c = '\x0b' || c = '\x0c'

/-- Model of Python `str.strip()`: drop whitespace from both ends. -/
def pyStrip (l : List Char) : List Char :=
  ((l.dropWhile isPyWs).reverse.dropWhile isPyWs).reverse

/-- Model of Python `str.lower()` (ASCII case folding). -/
def pyLower (l : List Char) : List Char := l.map Char.toLower

/-- Model of Python `str.upper()` (ASCII case folding). -/
def pyUpper (l : List Char) : List Char := l.map Char.toUpper

/-- If `pat` matches at the head of `text`, return the rest of `text`
after the match; otherwise `none`. -/
def matchRest : List Char → List Char → Option (List Char)
  | rest, [] => some rest
  | [], _ :: _ => none
  | a :: xs, b :: ys => if a = b then matchRest xs ys else none

/-- Model of Python `str.startswith`. -/
def startsW (text pat : List Char) : Bool := (matchRest text pat).isSome

/-- Model of the Python `in` operator on strings: substring containment. -/
def containsSub : List Char → List Char → Bool
  | [], pat => (matchRest [] pat).isSome
  | c :: rest, pat => (matchRest (c :: rest) pat).isSome || containsSub rest pat

/-- Model of `re.sub(r"\s+", " ", s)`: collapse each whitespace run to a
single space.  The `inWs` flag records whether the previous character was
part of a whitespace run. -/
def squeezeWsAux : Bool → List Char → List Char
  | _, [] => []
  | inWs, c :: rest =>
    if isPyWs c then
      if inWs then squeezeWsAux true rest
      else ' ' :: squeezeWsAux true rest
    else c :: squeezeWsAux false rest

/-- Collapse whitespace runs to single spaces, as `re.sub(r"\s+", " ", s)`. -/
def squeezeWs (l : List Char) : List Char := squeezeWsAux false l

/-- Regex word characters (`\w` = `[A-Za-z0-9_]`) used by `\b` boundaries. -/
def isWordChar (c : Char) : Bool := c.isAlphanum || c = '_'

/-- Whether `tok` matches at the head of `text` with `\b` boundaries on
both sides; `prev` is the character immediately before `text` (if any). -/
def wordMatchAt (prev : Option Char) (text tok : List Char) : Bool :=
  (match prev with
   | none => true
   | some c => !isWordChar c) &&
  (match matchRest text tok with
   | none => false
   | some rest =>
     match rest with
     | [] => true
     | c :: _ => !isWordChar c)

/-- Model of `re.search(rf"\b{tok}\b", text)`: scan every position of
`text` for a word-boundary match of `tok`. -/
def wordSearch (prev : Option Char) (text tok : List Char) : Bool :=
  match text with
  | [] => wordMatchAt prev [] tok
  | c :: rest => wordMatchAt prev text tok || wordSearch (some c) rest tok

/-- Join a list of strings with a separator, as Python `sep.join(parts)`. -/
def joinSep (sep : List Char) : List (List Char) → List Char
  | [] => []
  | [x] => x
  | x :: y :: rest => x ++ sep ++ joinSep sep (y :: rest)

/-- Decimal digits of a natural number, fuel-recursive so that the kernel
can evaluate it. -/
def natToDigitsAux : Nat → Nat → List Char
  | 0, _ => []
  | fuel + 1, n =>
    if n = 0 then []
    else natToDigitsAux fuel (n / 10) ++ [Char.ofNat (48 + n % 10)]

/-- Decimal rendering of a natural number (Python `str(n)` for `n ≥ 0`). -/
def natToDigits (n : Nat) : List Char :=
  if n = 0 then ['0'] else natToDigitsAux (n + 1) n

/-- Zero-pad a natural number to `w` digits, as the format `{n:0wd}`. -/
def padNat (w : Nat) (n : Nat) : List Char :=
  let ds := natToDigits n
  List.replicate (w - ds.length) '0' ++ ds

/-- Zero-pad an integer to width `w`, as the format `{i:0wd}`. -/
def padInt (w : Nat) (i : Int) : List Char :=
  if i < 0 then '-' :: padNat (w - 1) i.natAbs else padNat w i.toNat

/-- Model of Python `int()` truncation toward zero on a rational. -/
def pyTrunc (q : ℚ) : Int := if 0 ≤ q then ⌊q⌋ else ⌈q⌉

/-- Split a string at the first occurrence of the separator `"::"`,
returning the parts before and after it, or `none` when the separator
does not occur.  This models `value.split("::", 1)` guarded by
`"::" in value` (src/core/db/kuzu_manager.py). -/
def splitSepOnce : List Char → Option (List Char × List Char)
  | [] => none
  | [_] => none
  | a :: b :: rest =>
    if a = ':' ∧ b = ':' then some ([], rest)
    else
      match splitSepOnce (b :: rest) with
      | some (pre, post) => some (a :: pre, post)
      | none => none

/-- Model of `build_scoped_value` (src/core/db/kuzu_manager.py:15-22).
An empty `meeting_id` list models both Python `None` and `""` (both are
falsy for `if not meeting_id`). -/
def build_scoped_value (meeting_id v : List Char) : List Char :=
  let clean := pyStrip v
  if clean = [] then []
  else if meeting_id = [] then clean
  else meeting_id ++ ':' :: ':' :: clean

/-- Model of `decode_scoped_value` (src/core/db/kuzu_manager.py:25-31). -/
def decode_scoped_value (v : List Char) : List Char :=
  match splitSepOnce v with
  | none => v
  | some (_, post) => post

/-- Model of `extract_scope_from_value` (src/core/db/kuzu_manager.py:34-40):
the prefix before the first `"::"` is returned only when it starts with
`"m_"`. -/
def extract_scope_from_value (v : List Char) : List Char :=
  match splitSepOnce v with
  | none => []
  | some (pre, _) => if pre.take 2 = ['m', '_'] then pre else []

/-- Canonical task statuses (src/core/utils.py:18-20). -/
def ALLOWED_TASK_STATUSES : List (List Char) :=
  [str "pending", str "in_progress", str "done", str "blocked"]

/-- Task status aliases (src/core/utils.py:24-30). -/
def TASK_STATUS_ALIASES : List (List Char × List Char) :=
  [(str "to do", str "pending"),
   (str "todo", str "pending"),
   (str "in progress", str "in_progress"),
   (str "complete", str "done"),
   (str "completed", str "done")]

/-- Alias lookup with identity fallback, modelling
`_TASK_STATUS_ALIASES.get(status, status)`. -/
def lookupAlias (s : List Char) : List Char :=
  match TASK_STATUS_ALIASES.find? (fun p => p.1 == s) with
  | some p => p.2
  | none => s

/-- Model of `normalize_task_status` (src/core/utils.py:33-42). -/
def normalize_task_status (raw : List Char) : List Char :=
  let status := pyLower (pyStrip raw)
  let normalized := lookupAlias status
  if normalized ∈ ALLOWED_TASK_STATUSES then normalized else str "pending"

/-- The deny-list `FORBIDDEN_CYPHER_TOKENS`
(src/core/agent/hybrid_rag.py:16-31). -/
def FORBIDDEN_CYPHER_TOKENS : List (List Char) :=
  [str "CREATE", str "MERGE", str "SET", str "DELETE", str "DROP",
   str "ALTER", str "INSERT", str "REMOVE", str "CALL", str "COPY",
   str "LOAD", str "UNWIND", str "PROFILE", str "EXPLAIN"]

/-- Model of `HybridRAG._validate_read_only_cypher`
(src/core/agent/hybrid_rag.py:107-124).  Returns the `(is_valid, message)`
pair of the source. -/
def validate_read_only_cypher (query : List Char) : Bool × List Char :=
  if query = [] then (false, str "Empty Cypher query.")
  else
    let normalized := pyUpper (squeezeWs (pyStrip query))
    if !(startsW normalized (str "MATCH ") || startsW normalized (str "OPTIONAL MATCH ")
          || startsW normalized (str "WITH ")) then
      (false, str "Cypher must start with MATCH/OPTIONAL MATCH/WITH.")
    else
      let upper := pyUpper query
      if query.contains ';' then (false, str "Multiple statements are not allowed.")
      else if !containsSub upper (str "RETURN") then
        (false, str "Cypher query must contain a RETURN clause.")
      else
        match FORBIDDEN_CYPHER_TOKENS.find? (fun tok => wordSearch none upper tok) with
        | some tok => (false, str "Read-only policy violation: " ++ tok)
        | none => (true, [])

/-- Model of `safe_limit = max(1, min(int(limit or 20), 200))`
(src/core/agent/hybrid_rag.py:128).  A zero hint is falsy in Python, so
`limit or 20` replaces it with the default 20. -/
def safe_limit (limit : Int) : Nat :=
  (max 1 (min (if limit = 0 then 20 else limit) 200)).toNat

/-- Model of Python `query.rstrip(";")`: drop trailing semicolons. -/
def rstripSemi (l : List Char) : List Char :=
  (l.reverse.dropWhile (fun c => c = ';')).reverse

/-- Structured result of `cypher_search`, mirroring the
`{ok, error, query, rows}` dict it returns.  `ρ` is the row type produced
by the store. -/
structure CypherResult (ρ : Type) where
  ok : Bool
  error : List Char
  query : List Char
  rows : List ρ
deriving DecidableEq

/-- The query preparation step of `HybridRAG.cypher_search`
(src/core/agent/hybrid_rag.py:139-141): strip trailing semicolons and
whitespace, then append a `LIMIT safe_limit` clause when none is
present. -/
def prepared_cypher (q0 : List Char) (limit : Int) : List Char :=
  let q1 := pyStrip (rstripSemi q0)
  if containsSub (pyUpper q1) (str "LIMIT") then q1
  else q1 ++ str " LIMIT " ++ natToDigits (safe_limit limit)

/-- Model of `HybridRAG.cypher_search` (src/core/agent/hybrid_rag.py:126-162).
The language model call `_generate_cypher` is external: its outcome is the
parameter `gen` (an exception message, or the generated query string; the
generated `params` dict only passes through to the store and is folded into
`exec`).  The store execution is the parameter `exec`, returning either an
exception message or the result rows. -/
def cypher_search (gen : Except (List Char) (List Char))
    (exec : List Char → Except (List Char) (List ρ)) (limit : Int) :
    CypherResult ρ :=
  match gen with
  | .error e => ⟨false, str "Cypher execution failed: " ++ e, [], []⟩
  | .ok q0 =>
    let q2 := prepared_cypher q0 limit
    match validate_read_only_cypher q2 with
    | (false, msg) => ⟨false, msg, q2, []⟩
    | (true, _) =>
      match exec q2 with
      | .error e => ⟨false, str "Cypher execution failed: " ++ e, q2, []⟩
      | .ok rows => ⟨true, [], q2, rows⟩

/-- The clamp into `[1, 200]` as the spec's words state it, used to compare
against the code's `safe_limit`. -/
def hintClamp (limit : Int) : Nat := (max 1 (min limit 200)).toNat



/-- A registered tool (src/core/agent/tools/__init__.py:9-13).  The handler
receives the argument dict; the store handle and search engine it also
receives in Python, and any exception it may raise, are folded into the
handler type: it returns either an exception message or a result string. -/
structure ToolInfo where
  name : List Char
  description : List Char
  handler : List (List Char × List Char) → Except (List Char) (List Char)

/-- The registry's `_tools` dict, modelled as an insertion-ordered
association list (the Python dict preserves insertion order and updates
in place). -/
def dictInsert : List (List Char × v) → List Char → v → List (List Char × v)
  | [], k, x => [(k, x)]
  | (k', x') :: rest, k, x =>
    if k' = k then (k, x) :: rest else (k', x') :: dictInsert rest k x

/-- Python `dict.get` on the registry's `_tools` dict. -/
def dictGet : List (List Char × v) → List Char → Option v
  | [], _ => none
  | (k', x') :: rest, k => if k' = k then some x' else dictGet rest k

/-- Model of `ToolRegistry.register` (src/core/agent/tools/__init__.py:20-28):
store a `ToolInfo` under `name`, overwriting any previous entry. -/
def registryRegister (reg : List (List Char × ToolInfo)) (name description : List Char)
    (handler : List (List Char × List Char) → Except (List Char) (List Char)) :
    List (List Char × ToolInfo) :=
  dictInsert reg name ⟨name, description, handler⟩

/-- Model of `ToolRegistry.execute` (src/core/agent/tools/__init__.py:30-39):
dispatch to the handler; an unknown name or a handler exception produces an
error string instead of propagating. -/
def registryExecute (reg : List (List Char × ToolInfo)) (name : List Char)
    (args : List (List Char × List Char)) : List Char :=
  match dictGet reg name with
  | none => str "알 수 없는 도구: " ++ name
  | some tool =>
    match tool.handler args with
    | .ok s => s
    | .error e => str "도구 실행 오류 (" ++ name ++ str "): " ++ e

/-- Conversation messages as the router sees them (langchain message
classes, by constructor). -/
inductive ChatMessage
  | human (content : List Char)
  | ai (content : List Char)
  | system (content : List Char)
deriving DecidableEq

/-- The `tool_name` / `tool_args` slice of `AgentState` set by the router
(src/core/agent/agent.py:36-43). -/
structure RouteState where
  tool_name : List Char
  tool_args : List (List Char × List Char)
deriving DecidableEq

/-- Scan for the most recent `HumanMessage` content; models the
`for msg in reversed(user_messages)` loop of `router_node`
(src/core/agent/agent.py:102-106), applied to an already reversed list. -/
def lastHumanAux : List ChatMessage → List Char
  | [] => []
  | ChatMessage.human c :: _ => c
  | ChatMessage.ai _ :: rest => lastHumanAux rest
  | ChatMessage.system _ :: rest => lastHumanAux rest

/-- The successfully parsed router output: `parsed.get("tool_name", ...)`
and `parsed.get("tool_args", ...)` with the dict-shape check.  `tool_args`
is `none` when the key is absent or its value is not a dict. -/
structure RouterOutput where
  tool_name : Option (List Char)
  tool_args : Option (List (List Char × List Char))

/-- Model of `router_node`'s decision logic (src/core/agent/agent.py:95-109).
The language model call is external; `parsed` is `some p` when
`json.loads(response.content.strip())` yields a dict, and `none` when the
`(json.JSONDecodeError, AttributeError)` handler fires. -/
def router_node (user_messages : List ChatMessage) (parsed : Option RouterOutput) :
    RouteState :=
  match parsed with
  | some p => ⟨p.tool_name.getD (str "direct_answer"), p.tool_args.getD []⟩
  | none => ⟨str "hybrid_search", [(str "query", lastHumanAux user_messages.reverse)]⟩

/-- Upsert into a keyed table: Cypher `MERGE (n {key}) SET fields`
replaces the matched node's fields, otherwise creates the node. -/
def upsertByKey (key : α → List Char) (l : List α) (x : α) : List α :=
  if l.any (fun y => key y == key x) then
    l.map (fun y => if key y == key x then x else y)
  else l ++ [x]

/-- Insert-if-absent into a keyed table: Cypher
`MERGE (n {key}) ON CREATE SET fields` keeps an existing node unchanged. -/
def keepByKey (key : α → List Char) (l : List α) (x : α) : List α :=
  if l.any (fun y => key y == key x) then l else l ++ [x]

/-- Cypher `MERGE` of a relationship instance: add the edge unless an
identical one already exists. -/
def addIfAbsent [DecidableEq α] (l : List α) (x : α) : List α :=
  if x ∈ l then l else l ++ [x]

/-- Whether a keyed table holds a row with the given key (the Cypher
`MATCH (n {key})` test used before relationship `MERGE`s). -/
def hasKey (key : α → List Char) (l : List α) (k : List Char) : Bool :=
  l.any (fun y => key y == k)

/-- Utterance node row (schema in src/core/db/kuzu_manager.py:115). -/
structure UttNode where
  id : List Char
  text : List Char
  startTime : ℚ
  endTime : ℚ
  embedding : List ℚ
deriving DecidableEq

/-- Person node row (src/core/db/kuzu_manager.py:111). -/
structure PersonNode where
  name : List Char
  role : List Char
deriving DecidableEq

/-- Topic node row (src/core/db/kuzu_manager.py:112). -/
structure TopicNode where
  title : List Char
  summary : List Char
deriving DecidableEq

/-- Task node row (src/core/db/kuzu_manager.py:113). -/
structure TaskNode where
  description : List Char
  deadline : List Char
  status : List Char
deriving DecidableEq

/-- Decision node row (src/core/db/kuzu_manager.py:114). -/
structure DecisionNode where
  description : List Char
deriving DecidableEq

/-- Meeting node row (src/core/db/kuzu_manager.py:116). -/
structure MeetingNode where
  id : List Char
  title : List Char
  date : List Char
  source_file : List Char
deriving DecidableEq

/-- Entity node row (src/core/db/kuzu_manager.py:117). -/
structure EntityNode where
  name : List Char
  entity_type : List Char
  description : List Char
deriving DecidableEq

/-- The graph store state: one list per node table and per relationship
table of the schema (src/core/db/kuzu_manager.py:106-133).  Plain edges
are `(source key, target key)` pairs; `related_to` carries its
`relation_type` as `(source, relation_type, target)`. -/
structure Store where
  meetings : List MeetingNode
  people : List PersonNode
  topics : List TopicNode
  tasks : List TaskNode
  decisions : List DecisionNode
  utterances : List UttNode
  entities : List EntityNode
  proposed : List (List Char × List Char)
  assigned_to : List (List Char × List Char)
  resulted_in : List (List Char × List Char)
  spoke : List (List Char × List Char)
  next : List (List Char × List Char)
  discussed : List (List Char × List Char)
  contains : List (List Char × List Char)
  has_task : List (List Char × List Char)
  has_decision : List (List Char × List Char)
  related_to : List (List Char × List Char × List Char)
  mentions : List (List Char × List Char)
  has_entity : List (List Char × List Char)
deriving DecidableEq

/-- The store with every table empty. -/
def emptyStore : Store :=
  ⟨[], [], [], [], [], [], [], [], [], [], [], [], [], [], [], [], [], [], []⟩

/-- Normalize an optional Python string that the source tests for
truthiness: `None` and `""` behave identically. -/
def optNonEmpty (m : Option (List Char)) : Option (List Char) :=
  match m with
  | some x => if x = [] then none else some x
  | none => none

/-- One STT segment as consumed by `ingest_transcript`; fields carry the
`seg.get(..., default)` defaults already applied for `start`/`end`/`text`,
while the speaker is kept optional (`seg.get('speaker', 'Unknown')`). -/
structure Segment where
  start : ℚ
  stop : ℚ
  text : List Char
  speaker : Option (List Char)
deriving DecidableEq

/-- The utterance id `f"u_{scope}_{i:06d}_{int(start * 1000):010d}"`
(src/core/db/kuzu_manager.py:163). -/
def uttId (scope : List Char) (i : Nat) (start : ℚ) : List Char :=
  str "u_" ++ scope ++ '_' :: padNat 6 i ++ '_' :: padInt 10 (pyTrunc (start * 1000))

/-- The loop body of `ingest_transcript` (src/core/db/kuzu_manager.py:158-200)
over the remaining segments, acting on the in-transaction working store.
Returns the written store and the `ingested_count`. -/
def ingestLoop (embeddings : Option (List (List ℚ))) (mId : Option (List Char)) :
    Store → Nat → Option (List Char) → List Segment →
    Except (List Char) (Store × Nat)
  | s, _, _, [] => .ok (s, 0)
  | s, i, prev, seg :: rest =>
    let text := pyStrip seg.text
    let scope := (optNonEmpty mId).getD (str "global")
    let u_id := uttId scope i seg.start
    match embeddings with
    | none => .error (str "Missing embedding for segment " ++ natToDigits i)
    | some es =>
      if es = [] ∨ es.length ≤ i then
        .error (str "Missing embedding for segment " ++ natToDigits i)
      else
        let vector := es.getD i []
        let uNode : UttNode := ⟨u_id, text, seg.start, seg.stop, vector⟩
        let s := { s with utterances := keepByKey (fun u => u.id) s.utterances uNode }
        let speaker := seg.speaker.getD (str "Unknown")
        let s := { s with people :=
                     keepByKey (fun p => p.name) s.people ⟨speaker, str "Member"⟩ }
        let s := if hasKey (fun p => p.name) s.people speaker &&
                    hasKey (fun u => u.id) s.utterances u_id then
                   { s with spoke := addIfAbsent s.spoke (speaker, u_id) }
                 else s
        let s := match prev with
                 | some pid =>
                   if hasKey (fun u => u.id) s.utterances pid &&
                      hasKey (fun u => u.id) s.utterances u_id then
                     { s with next := addIfAbsent s.next (pid, u_id) }
                   else s
                 | none => s
        let s := match optNonEmpty mId with
                 | some mid =>
                   if hasKey (fun m => m.id) s.meetings mid &&
                      hasKey (fun u => u.id) s.utterances u_id then
                     { s with contains := addIfAbsent s.contains (mid, u_id) }
                   else s
                 | none => s
        match ingestLoop embeddings mId s (i + 1) (some u_id) rest with
        | .ok (s', n) => .ok (s', n + 1)
        | .error e => .error e

/-- Model of `KuzuManager.ingest_transcript`
(src/core/db/kuzu_manager.py:143-208).  The count pre-check raises before
the transaction; the loop runs inside `_transaction`
(src/core/db/kuzu_manager.py:91-104), so on any loop failure the working
store is discarded (`ROLLBACK`) and the committed state stays as it was.
The returned pair is (outcome, committed store after the call). -/
def ingest_transcript (s : Store) (segments : List Segment)
    (embeddings : Option (List (List ℚ))) (meeting_id : Option (List Char)) :
    Except (List Char) Nat × Store :=
  if (match embeddings with
      | some es => es.length != segments.length
      | none => false) then
    (.error (str "Embedding count mismatch"), s)
  else
    match ingestLoop embeddings meeting_id s 0 none segments with
    | .ok (s', n) => (.ok n, s')
    | .error e => (.error e, s)

/-- Utterance record of a graph dump: the embedding is optional because
`export_graph_dump(include_embeddings=False)` omits it. -/
structure UttDump where
  id : List Char
  text : List Char
  start : ℚ
  stop : ℚ
  embedding : Option (List ℚ)
deriving DecidableEq

/-- The `{schema_version, nodes, edges}` snapshot produced by
`export_graph_dump` (src/core/db/kuzu_manager.py:210-237), flattened. -/
structure GraphDump where
  schema_version : Nat
  meetings : List MeetingNode
  people : List PersonNode
  topics : List TopicNode
  tasks : List TaskNode
  decisions : List DecisionNode
  utterances : List UttDump
  entities : List EntityNode
  proposed : List (List Char × List Char)
  assigned_to : List (List Char × List Char)
  resulted_in : List (List Char × List Char)
  spoke : List (List Char × List Char)
  next : List (List Char × List Char)
  discussed : List (List Char × List Char)
  contains : List (List Char × List Char)
  has_task : List (List Char × List Char)
  has_decision : List (List Char × List Char)
  related_to : List (List Char × List Char × List Char)
  mentions : List (List Char × List Char)
  has_entity : List (List Char × List Char)
deriving DecidableEq

/-- Model of `KuzuManager.export_graph_dump`
(src/core/db/kuzu_manager.py:210-333): every node table and relationship
table is read out with a plain `MATCH ... RETURN` and serialized in store
order; utterance embeddings are included only when requested. -/
def export_graph_dump (s : Store) (include_embeddings : Bool) : GraphDump where
  schema_version := 3
  meetings := s.meetings
  people := s.people
  topics := s.topics
  tasks := s.tasks
  decisions := s.decisions
  utterances := s.utterances.map (fun u =>
    ⟨u.id, u.text, u.startTime, u.endTime,
     if include_embeddings then some u.embedding else none⟩)
  entities := s.entities
  proposed := s.proposed
  assigned_to := s.assigned_to
  resulted_in := s.resulted_in
  spoke := s.spoke
  next := s.next
  discussed := s.discussed
  contains := s.contains
  has_task := s.has_task
  has_decision := s.has_decision
  related_to := s.related_to
  mentions := s.mentions
  has_entity := s.has_entity

/-- Edge restoration loop shared by the plain edge tables of
`restore_graph_dump`: skip records with a falsy endpoint key, `MATCH` both
endpoints and `MERGE` the edge. -/
def restorePlainEdges (srcOk tgtOk : List Char → Bool)
    (edges items : List (List Char × List Char)) : List (List Char × List Char) :=
  items.foldl (fun l e =>
    if e.1 = [] ∨ e.2 = [] then l
    else if srcOk e.1 && tgtOk e.2 then addIfAbsent l e else l) edges

/-- Edge restoration loop for `RELATED_TO` triples
(src/core/db/kuzu_manager.py:494-505): only source and target are
truthiness-checked. -/
def restoreRelatedEdges (entOk : List Char → Bool)
    (edges items : List (List Char × List Char × List Char)) :
    List (List Char × List Char × List Char) :=
  items.foldl (fun l e =>
    if e.1 = [] ∨ e.2.2 = [] then l
    else if entOk e.1 && entOk e.2.2 then addIfAbsent l e else l) edges

/-- Node restoration loop shared by the node tables of
`restore_graph_dump`: skip records with a falsy key, then
`MERGE ... SET` (upsert) the possibly transformed record. -/
def restoreKeyedWith (key : α → List Char) (keyOf : β → List Char) (tr : β → α)
    (l : List α) (items : List β) : List α :=
  items.foldl (fun cur x => if keyOf x = [] then cur else upsertByKey key cur (tr x)) l

/-- Entity restoration loop of `restore_graph_dump`
(src/core/db/kuzu_manager.py:482-493): `MERGE ... ON CREATE SET` keeps an
existing entity unchanged. -/
def restoreEntities (l : List EntityNode) (items : List EntityNode) : List EntityNode :=
  items.foldl (fun cur e => if e.name = [] then cur else keepByKey (fun x => x.name) cur e) l

/-- Whether a dump utterance record triggers the zero-vector
substitution: the embedding key is absent or its value is falsy
(`if not embedding`, src/core/db/kuzu_manager.py:400-403). -/
def uttMissing (u : UttDump) : Bool :=
  match u.embedding with
  | none => true
  | some v => v.isEmpty

/-- The utterance node written by `restore_graph_dump` for a dump record:
the stored embedding, or a zero vector of the configured dimensionality
when missing. -/
def uttFromDump (dim : Nat) (u : UttDump) : UttNode :=
  ⟨u.id, u.text, u.start, u.stop,
   if uttMissing u then List.replicate dim (0 : ℚ) else u.embedding.getD []⟩

/-- Utterance restoration loop of `restore_graph_dump`
(src/core/db/kuzu_manager.py:396-414): a record whose embedding is absent
or empty (`if not embedding`) gets a zero vector of the configured
dimensionality and raises the `has_embeddings_missing` flag. -/
def restoreUtterances (dim : Nat) (l : List UttNode) (items : List UttDump) :
    List UttNode × Bool :=
  items.foldl
    (fun acc u =>
      if u.id = [] then acc
      else
        (upsertByKey (fun x => x.id) acc.1 (uttFromDump dim u),
         acc.2 || uttMissing u))
    (l, false)

/-- Model of `KuzuManager.restore_graph_dump`
(src/core/db/kuzu_manager.py:335-525).  `dim` is
`self.config.embedding_dim`.  Node records with a falsy key are skipped;
task statuses are normalized on write; an utterance record whose
embedding is absent or empty gets a zero vector and the returned `Bool`
records the resulting non-fatal `has_embeddings_missing` warning.  The
whole restore runs in one transaction and, absent engine errors, commits.
Dict-key defaults (`"TBD"`, `"Member"`, `"concept"`, …) are elided
because the dump record types carry every field `export_graph_dump`
always emits. -/
def restore_graph_dump (dim : Nat) (s : Store) (dump : GraphDump) : Store × Bool :=
  let meetings1 : List MeetingNode :=
    restoreKeyedWith (fun (x : MeetingNode) => x.id) (fun (x : MeetingNode) => x.id) id
      s.meetings dump.meetings
  let people1 : List PersonNode :=
    restoreKeyedWith (fun (x : PersonNode) => x.name) (fun (x : PersonNode) => x.name) id
      s.people dump.people
  let topics1 : List TopicNode :=
    restoreKeyedWith (fun (x : TopicNode) => x.title) (fun (x : TopicNode) => x.title) id
      s.topics dump.topics
  let tasks1 : List TaskNode :=
    restoreKeyedWith (fun (x : TaskNode) => x.description) (fun (x : TaskNode) => x.description)
      (fun (t : TaskNode) => ⟨t.description, t.deadline, normalize_task_status t.status⟩)
      s.tasks dump.tasks
  let decisions1 : List DecisionNode :=
    restoreKeyedWith (fun (x : DecisionNode) => x.description)
      (fun (x : DecisionNode) => x.description) id s.decisions dump.decisions
  let ures : List UttNode × Bool := restoreUtterances dim s.utterances dump.utterances
  let utterances1 : List UttNode := ures.1
  let proposed1 := restorePlainEdges (hasKey (fun (p : PersonNode) => p.name) people1)
    (hasKey (fun (t : TopicNode) => t.title) topics1) s.proposed dump.proposed
  let assigned1 := restorePlainEdges (hasKey (fun (p : PersonNode) => p.name) people1)
    (hasKey (fun (t : TaskNode) => t.description) tasks1) s.assigned_to dump.assigned_to
  let resulted1 := restorePlainEdges (hasKey (fun (t : TopicNode) => t.title) topics1)
    (hasKey (fun (d : DecisionNode) => d.description) decisions1) s.resulted_in dump.resulted_in
  let spoke1 := restorePlainEdges (hasKey (fun (p : PersonNode) => p.name) people1)
    (hasKey (fun (u : UttNode) => u.id) utterances1) s.spoke dump.spoke
  let next1 := restorePlainEdges (hasKey (fun (u : UttNode) => u.id) utterances1)
    (hasKey (fun (u : UttNode) => u.id) utterances1) s.next dump.next
  let discussed1 := restorePlainEdges (hasKey (fun (m : MeetingNode) => m.id) meetings1)
    (hasKey (fun (t : TopicNode) => t.title) topics1) s.discussed dump.discussed
  let contains1 := restorePlainEdges (hasKey (fun (m : MeetingNode) => m.id) meetings1)
    (hasKey (fun (u : UttNode) => u.id) utterances1) s.contains dump.contains
  let hasTask1 := restorePlainEdges (hasKey (fun (m : MeetingNode) => m.id) meetings1)
    (hasKey (fun (t : TaskNode) => t.description) tasks1) s.has_task dump.has_task
  let hasDecision1 := restorePlainEdges (hasKey (fun (m : MeetingNode) => m.id) meetings1)
    (hasKey (fun (d : DecisionNode) => d.description) decisions1) s.has_decision dump.has_decision
  let entities1 : List EntityNode := restoreEntities s.entities dump.entities
  let related1 := restoreRelatedEdges (hasKey (fun (e : EntityNode) => e.name) entities1)
    s.related_to dump.related_to
  let mentions1 := restorePlainEdges (hasKey (fun (t : TopicNode) => t.title) topics1)
    (hasKey (fun (e : EntityNode) => e.name) entities1) s.mentions dump.mentions
  let hasEntity1 := restorePlainEdges (hasKey (fun (m : MeetingNode) => m.id) meetings1)
    (hasKey (fun (e : EntityNode) => e.name) entities1) s.has_entity dump.has_entity
  (⟨meetings1, people1, topics1, tasks1, decisions1, utterances1, entities1,
    proposed1, assigned1, resulted1, spoke1, next1, discussed1, contains1,
    hasTask1, hasDecision1, related1, mentions1, hasEntity1⟩, ures.2)

/-- Keep the first occurrence of each row, as Cypher `RETURN DISTINCT`
over the rows in arrival order. -/
def dedupKeepFirst [DecidableEq α] : List α → List α
  | [] => []
  | x :: rest => x :: (dedupKeepFirst rest).filter (fun y => y != x)

/-- Topic dict of the read primitives (`{id, title, summary, meeting_id}`). -/
structure TopicOut where
  id : List Char
  title : List Char
  summary : List Char
  meeting_id : List Char
deriving DecidableEq

/-- Decision dict of the read primitives (`{id, description, meeting_id}`). -/
structure DecisionOut where
  id : List Char
  description : List Char
  meeting_id : List Char
deriving DecidableEq

/-- Person dict of the read primitives (`{name, role}`). -/
structure PersonOut where
  name : List Char
  role : List Char
deriving DecidableEq

/-- Task dict of the read primitives
(`{id, description, deadline, status, assignee, meeting_id}`); the
assignee is `none` when the `OPTIONAL MATCH` found no `ASSIGNED_TO` edge
(and for `get_person_tasks`, whose dict has no assignee key). -/
structure TaskOut where
  id : List Char
  description : List Char
  deadline : List Char
  status : List Char
  assignee : Option (List Char)
  meeting_id : List Char
deriving DecidableEq

/-- Entity dict of the read primitives
(`{name, entity_type, description, meeting_id}`). -/
structure EntityOut where
  name : List Char
  entity_type : List Char
  description : List Char
  meeting_id : List Char
deriving DecidableEq

/-- The dict returned by `get_meeting_summary`
(src/core/db/kuzu_manager.py:940-981). -/
structure MeetingSummary where
  meeting_id : List Char
  title : List Char
  date : List Char
  source_file : List Char
  topics : List TopicOut
  decisions : List DecisionOut
  people : List PersonOut
  tasks : List TaskOut
  entities : List EntityOut
deriving DecidableEq

/-- Row semantics of
`MATCH (t:Task) OPTIONAL MATCH (p:Person)-[:ASSIGNED_TO]->(t) RETURN
t.description, t.deadline, t.status, p.name`: one row per task per
assignee, or a single row with a null assignee. -/
def taskAssigneeRows (s : Store) : List (TaskNode × Option (List Char)) :=
  s.tasks.flatMap (fun (t : TaskNode) =>
    let assignees : List (List Char) :=
      (s.assigned_to.filter (fun e => e.2 == t.description)).filterMap
        (fun e => (s.people.find? (fun (p : PersonNode) => p.name == e.1)).map
          (fun (p : PersonNode) => p.name))
    match assignees with
    | [] => [(t, none)]
    | l => l.map (fun nm => (t, some nm)))

/-- Model of `KuzuManager.get_all_tasks` (src/core/db/kuzu_manager.py:717-740):
optional keyword filter over description/status/assignee, limit, then the
dict projection with scoped-key decoding and status normalization. -/
def get_all_tasks (s : Store) (lim : Nat) (keyword : List Char) : List TaskOut :=
  let rows : List (TaskNode × Option (List Char)) :=
    if keyword = [] then taskAssigneeRows s
    else (taskAssigneeRows s).filter (fun r =>
      containsSub r.1.description keyword || containsSub r.1.status keyword ||
      (match r.2 with
       | some n => containsSub n keyword
       | none => false))
  (rows.take lim).map (fun r =>
    ⟨r.1.description, decode_scoped_value r.1.description, r.1.deadline,
     normalize_task_status r.1.status, r.2, extract_scope_from_value r.1.description⟩)

/-- Model of `KuzuManager.get_person_tasks`
(src/core/db/kuzu_manager.py:742-754): tasks reached through the person's
`ASSIGNED_TO` edges (the returned dict carries no assignee key, modelled
as `none`). -/
def get_person_tasks (s : Store) (person_name : List Char) (lim : Nat) : List TaskOut :=
  let rows : List TaskNode :=
    if (s.people.find? (fun (p : PersonNode) => p.name == person_name)).isSome then
      (s.assigned_to.filter (fun e => e.1 == person_name)).filterMap
        (fun e => s.tasks.find? (fun (t : TaskNode) => t.description == e.2))
    else []
  (rows.take lim).map (fun t =>
    ⟨t.description, decode_scoped_value t.description, t.deadline,
     normalize_task_status t.status, none, extract_scope_from_value t.description⟩)

/-- Rows of `MATCH (m:Meeting {id})-[:DISCUSSED]->(t:Topic)
RETURN t.title, t.summary` (src/core/db/kuzu_manager.py:897-900). -/
def summaryTopicRows (s : Store) (mid : List Char) : List (List Char × List Char) :=
  (s.discussed.filter (fun e => e.1 == mid)).filterMap
    (fun e => (s.topics.find? (fun (t : TopicNode) => t.title == e.2)).map
      (fun (t : TopicNode) => (t.title, t.summary)))

/-- Rows of the decisions query of `get_meeting_summary`
(src/core/db/kuzu_manager.py:901-912): `HAS_DECISION` edges with a
`DISTINCT` projection, falling back to the legacy
`DISCUSSED → RESULTED_IN` path when empty. -/
def summaryDecisionRows (s : Store) (mid : List Char) : List (List Char) :=
  let primary : List (List Char) :=
    dedupKeepFirst ((s.has_decision.filter (fun e => e.1 == mid)).filterMap
      (fun e => (s.decisions.find? (fun (d : DecisionNode) => d.description == e.2)).map
        (fun (d : DecisionNode) => d.description)))
  if primary = [] then
    dedupKeepFirst ((s.discussed.filter (fun e => e.1 == mid)).flatMap (fun e =>
      if (s.topics.find? (fun (t : TopicNode) => t.title == e.2)).isSome then
        (s.resulted_in.filter (fun r => r.1 == e.2)).filterMap
          (fun r => (s.decisions.find? (fun (d : DecisionNode) => d.description == r.2)).map
            (fun (d : DecisionNode) => d.description))
      else []))
  else primary

/-- Rows of `MATCH (m {id})-[:CONTAINS]->(:Utterance)<-[:SPOKE]-(p:Person)
RETURN DISTINCT p.name, p.role` (src/core/db/kuzu_manager.py:913-917). -/
def summaryPeopleRows (s : Store) (mid : List Char) : List (List Char × List Char) :=
  dedupKeepFirst ((s.contains.filter (fun e => e.1 == mid)).flatMap (fun e =>
    if (s.utterances.find? (fun (u : UttNode) => u.id == e.2)).isSome then
      (s.spoke.filter (fun sp => sp.2 == e.2)).filterMap
        (fun sp => (s.people.find? (fun (p : PersonNode) => p.name == sp.1)).map
          (fun (p : PersonNode) => (p.name, p.role)))
    else []))

/-- Rows of the tasks query of `get_meeting_summary`
(src/core/db/kuzu_manager.py:918-930): `HAS_TASK` edges with an
`OPTIONAL MATCH` on the assignee and a `DISTINCT` projection, falling
back to the legacy `CONTAINS → SPOKE → ASSIGNED_TO` path when empty. -/
def summaryTaskRows (s : Store) (mid : List Char) :
    List (List Char × List Char × List Char × Option (List Char)) :=
  let primary : List (List Char × List Char × List Char × Option (List Char)) :=
    dedupKeepFirst ((s.has_task.filter (fun e => e.1 == mid)).flatMap (fun e =>
      match s.tasks.find? (fun (t : TaskNode) => t.description == e.2) with
      | none => []
      | some t =>
        let assignees : List (List Char) :=
          (s.assigned_to.filter (fun a => a.2 == t.description)).filterMap
            (fun a => (s.people.find? (fun (p : PersonNode) => p.name == a.1)).map
              (fun (p : PersonNode) => p.name))
        match assignees with
        | [] => [(t.description, t.deadline, t.status, none)]
        | l => l.map (fun nm => (t.description, t.deadline, t.status, some nm))))
  if primary = [] then
    dedupKeepFirst ((s.contains.filter (fun e => e.1 == mid)).flatMap (fun e =>
      if (s.utterances.find? (fun (u : UttNode) => u.id == e.2)).isSome then
        (s.spoke.filter (fun sp => sp.2 == e.2)).flatMap (fun sp =>
          match s.people.find? (fun (p : PersonNode) => p.name == sp.1) with
          | none => []
          | some p =>
            (s.assigned_to.filter (fun a => a.1 == p.name)).filterMap
              (fun a => (s.tasks.find? (fun (t : TaskNode) => t.description == a.2)).map
                (fun (t : TaskNode) =>
                  (t.description, t.deadline, t.status, some p.name))))
      else []))
  else primary

/-- Rows of `MATCH (m {id})-[:HAS_ENTITY]->(e:Entity)
RETURN e.name, e.entity_type, e.description`
(src/core/db/kuzu_manager.py:931-939). -/
def summaryEntityRows (s : Store) (mid : List Char) : List EntityNode :=
  (s.has_entity.filter (fun e => e.1 == mid)).filterMap
    (fun e => s.entities.find? (fun (x : EntityNode) => x.name == e.2))

/-- Model of `KuzuManager.get_meeting_summary`
(src/core/db/kuzu_manager.py:886-981).  `none` models the empty dict
returned for an unknown meeting id. -/
def get_meeting_summary (s : Store) (mid : List Char) : Option MeetingSummary :=
  match s.meetings.find? (fun (m : MeetingNode) => m.id == mid) with
  | none => none
  | some m =>
    some {
      meeting_id := mid
      title := m.title
      date := m.date
      source_file := m.source_file
      topics := (summaryTopicRows s mid).map (fun r =>
        ⟨r.1, decode_scoped_value r.1, r.2, extract_scope_from_value r.1⟩)
      decisions := (summaryDecisionRows s mid).map (fun d =>
        ⟨d, decode_scoped_value d, extract_scope_from_value d⟩)
      people := (summaryPeopleRows s mid).map (fun r => ⟨r.1, r.2⟩)
      tasks := (summaryTaskRows s mid).map (fun r =>
        ⟨r.1, decode_scoped_value r.1, r.2.1, normalize_task_status r.2.2.1,
         r.2.2.2, extract_scope_from_value r.1⟩)
      entities := (summaryEntityRows s mid).map (fun e =>
        ⟨decode_scoped_value e.name, e.entity_type, e.description,
         extract_scope_from_value e.name⟩)
    }

/-- Person record of the extraction payload (`{name, role}`;
`p['name']` is required, `p.get('role', 'Member')` optional). -/
structure AnalysisPerson where
  name : List Char
  role : Option (List Char)
deriving DecidableEq

/-- Topic record of the extraction payload. -/
structure AnalysisTopic where
  title : Option (List Char)
  summary : Option (List Char)
  proposer : Option (List Char)
deriving DecidableEq

/-- Task record of the extraction payload. -/
structure AnalysisTask where
  description : Option (List Char)
  assignee : Option (List Char)
  status : Option (List Char)
  deadline : Option (List Char)
deriving DecidableEq

/-- Decision record of the extraction payload. -/
structure AnalysisDecision where
  description : Option (List Char)
  related_topic : Option (List Char)
deriving DecidableEq

/-- Entity record of the extraction payload. -/
structure AnalysisEntity where
  name : Option (List Char)
  entity_type : Option (List Char)
  description : Option (List Char)
deriving DecidableEq

/-- Relation record of the extraction payload. -/
structure AnalysisRelation where
  source : Option (List Char)
  target : Option (List Char)
  relation_type : Option (List Char)
deriving DecidableEq

/-- The extraction payload consumed by `ingest_data`
(spec §6, knowledge-extraction collaborator). -/
structure AnalysisResult where
  people : List AnalysisPerson
  topics : List AnalysisTopic
  tasks : List AnalysisTask
  decisions : List AnalysisDecision
  entities : List AnalysisEntity
  relations : List AnalysisRelation
deriving DecidableEq

/-- The people loop body of `ingest_data`
(src/core/db/kuzu_manager.py:536-541). -/
def ingestPersonStep (st : Store) (p : AnalysisPerson) : Store :=
  let node : PersonNode := ⟨p.name, p.role.getD (str "Member")⟩
  { st with people := keepByKey (fun (x : PersonNode) => x.name) st.people node }

/-- The people loop of `ingest_data`. -/
def ingestPeople (s : Store) (people : List AnalysisPerson) : Store :=
  people.foldl ingestPersonStep s

/-- The topics loop body of `ingest_data`
(src/core/db/kuzu_manager.py:543-564), also threading the
`topic_keys_by_plain` dict. -/
def ingestTopicStep (mId : Option (List Char))
    (acc : Store × List (List Char × List Char)) (t : AnalysisTopic) :
    Store × List (List Char × List Char) :=
  let plain := pyStrip (t.title.getD [])
  let scopedKey := build_scoped_value (mId.getD []) plain
  if scopedKey = [] then acc
  else
    let keys := dictInsert acc.2 plain scopedKey
    let node : TopicNode := ⟨scopedKey, t.summary.getD []⟩
    let st := { acc.1 with topics :=
                  keepByKey (fun (x : TopicNode) => x.title) acc.1.topics node }
    let st := match t.proposer with
      | some pr =>
        if pr ≠ [] ∧ pr ≠ str "Unknown" then
          if hasKey (fun (p : PersonNode) => p.name) st.people pr &&
             hasKey (fun (x : TopicNode) => x.title) st.topics scopedKey then
            { st with proposed := addIfAbsent st.proposed (pr, scopedKey) }
          else st
        else st
      | none => st
    let st := match optNonEmpty mId with
      | some mid =>
        if hasKey (fun (m : MeetingNode) => m.id) st.meetings mid &&
           hasKey (fun (x : TopicNode) => x.title) st.topics scopedKey then
          { st with discussed := addIfAbsent st.discussed (mid, scopedKey) }
        else st
      | none => st
    (st, keys)

/-- The topics loop of `ingest_data`. -/
def ingestTopics (mId : Option (List Char)) (s : Store) (topics : List AnalysisTopic) :
    Store × List (List Char × List Char) :=
  topics.foldl (ingestTopicStep mId) (s, [])

/-- The tasks loop body of `ingest_data`
(src/core/db/kuzu_manager.py:566-589). -/
def ingestTaskStep (mId : Option (List Char)) (st : Store) (task : AnalysisTask) :
    Store :=
  let desc0 := pyStrip (task.description.getD [])
  let desc_text := if desc0 = [] then str "No Description" else desc0
  let scopedKey := build_scoped_value (mId.getD []) desc_text
  let status := normalize_task_status (task.status.getD (str "pending"))
  let node : TaskNode := ⟨scopedKey, task.deadline.getD (str "TBD"), status⟩
  let st := { st with tasks :=
                keepByKey (fun (x : TaskNode) => x.description) st.tasks node }
  let st := match task.assignee with
    | some a =>
      if a ≠ [] ∧ a ≠ str "Unassigned" then
        let pnode : PersonNode := ⟨a, str "Member"⟩
        let st := { st with people :=
                      keepByKey (fun (x : PersonNode) => x.name) st.people pnode }
        if hasKey (fun (p : PersonNode) => p.name) st.people a &&
           hasKey (fun (x : TaskNode) => x.description) st.tasks scopedKey then
          { st with assigned_to := addIfAbsent st.assigned_to (a, scopedKey) }
        else st
      else st
    | none => st
  match optNonEmpty mId with
  | some mid =>
    if hasKey (fun (m : MeetingNode) => m.id) st.meetings mid &&
       hasKey (fun (x : TaskNode) => x.description) st.tasks scopedKey then
      { st with has_task := addIfAbsent st.has_task (mid, scopedKey) }
    else st
  | none => st

/-- The tasks loop of `ingest_data`. -/
def ingestTasks (mId : Option (List Char)) (s : Store) (tasks : List AnalysisTask) :
    Store :=
  tasks.foldl (ingestTaskStep mId) s

/-- The decisions loop body of `ingest_data`
(src/core/db/kuzu_manager.py:591-610). -/
def ingestDecisionStep (mId : Option (List Char))
    (topicKeys : List (List Char × List Char)) (st : Store) (d : AnalysisDecision) :
    Store :=
  let desc0 := pyStrip (d.description.getD [])
  let desc_text := if desc0 = [] then str "No Description" else desc0
  let scopedKey := build_scoped_value (mId.getD []) desc_text
  let node : DecisionNode := ⟨scopedKey⟩
  let st := { st with decisions :=
                keepByKey (fun (x : DecisionNode) => x.description) st.decisions node }
  let st := match optNonEmpty mId with
    | some mid =>
      if hasKey (fun (m : MeetingNode) => m.id) st.meetings mid &&
         hasKey (fun (x : DecisionNode) => x.description) st.decisions scopedKey then
        { st with has_decision := addIfAbsent st.has_decision (mid, scopedKey) }
      else st
    | none => st
  match d.related_topic with
  | some rt =>
    if rt ≠ [] then
      let plain := pyStrip rt
      let resolved := (dictGet topicKeys plain).getD (build_scoped_value (mId.getD []) plain)
      if hasKey (fun (x : TopicNode) => x.title) st.topics resolved &&
         hasKey (fun (x : DecisionNode) => x.description) st.decisions scopedKey then
        { st with resulted_in := addIfAbsent st.resulted_in (resolved, scopedKey) }
      else st
    else st
  | none => st

/-- The decisions loop of `ingest_data`. -/
def ingestDecisions (mId : Option (List Char))
    (topicKeys : List (List Char × List Char)) (s : Store)
    (ds : List AnalysisDecision) : Store :=
  ds.foldl (ingestDecisionStep mId topicKeys) s

/-- The entities loop body of `ingest_data`
(src/core/db/kuzu_manager.py:612-637), also threading the
`entity_keys_by_plain` dict. -/
def ingestEntityStep (mId : Option (List Char))
    (acc : Store × List (List Char × List Char)) (ent : AnalysisEntity) :
    Store × List (List Char × List Char) :=
  let name := pyStrip (ent.name.getD [])
  if name = [] then acc
  else
    let scopedKey := build_scoped_value (mId.getD []) name
    let keys := dictInsert acc.2 name scopedKey
    let etype := pyStrip (ent.entity_type.getD (str "concept"))
    let edesc := pyStrip (ent.description.getD [])
    let node : EntityNode := ⟨scopedKey, etype, edesc⟩
    let st := { acc.1 with entities :=
                  keepByKey (fun (x : EntityNode) => x.name) acc.1.entities node }
    let st := match optNonEmpty mId with
      | some mid =>
        if hasKey (fun (m : MeetingNode) => m.id) st.meetings mid &&
           hasKey (fun (x : EntityNode) => x.name) st.entities scopedKey then
          { st with has_entity := addIfAbsent st.has_entity (mid, scopedKey) }
        else st
      | none => st
    let st := if etype = str "person" then
        let pnode : PersonNode := ⟨name, str "Member"⟩
        { st with people := keepByKey (fun (x : PersonNode) => x.name) st.people pnode }
      else st
    (st, keys)

/-- The entities loop of `ingest_data`. -/
def ingestEntities (mId : Option (List Char)) (s : Store)
    (ents : List AnalysisEntity) : Store × List (List Char × List Char) :=
  ents.foldl (ingestEntityStep mId) (s, [])

/-- The relations loop body of `ingest_data`
(src/core/db/kuzu_manager.py:639-652). -/
def ingestRelationStep (entityKeys : List (List Char × List Char)) (st : Store)
    (rel : AnalysisRelation) : Store :=
  let src := pyStrip (rel.source.getD [])
  let tgt := pyStrip (rel.target.getD [])
  let rtype := pyStrip (rel.relation_type.getD (str "related_to"))
  let srcKey := (dictGet entityKeys src).getD []
  let tgtKey := (dictGet entityKeys tgt).getD []
  if srcKey = [] ∨ tgtKey = [] then st
  else if hasKey (fun (x : EntityNode) => x.name) st.entities srcKey &&
          hasKey (fun (x : EntityNode) => x.name) st.entities tgtKey then
    { st with related_to := addIfAbsent st.related_to (srcKey, rtype, tgtKey) }
  else st

/-- The relations loop of `ingest_data`. -/
def ingestRelations (entityKeys : List (List Char × List Char)) (s : Store)
    (rels : List AnalysisRelation) : Store :=
  rels.foldl (ingestRelationStep entityKeys) s

/-- The inner entity scan of the `MENTIONS` loop
(src/core/db/kuzu_manager.py:664-670). -/
def ingestMentionInner (topic_text scopedTitle : List Char) (st : Store)
    (ek : List Char × List Char) : Store :=
  if containsSub topic_text ek.1 then
    if hasKey (fun (x : TopicNode) => x.title) st.topics scopedTitle &&
       hasKey (fun (x : EntityNode) => x.name) st.entities ek.2 then
      { st with mentions := addIfAbsent st.mentions (scopedTitle, ek.2) }
    else st
  else st

/-- The outer `MENTIONS` loop body of `ingest_data`
(src/core/db/kuzu_manager.py:654-670). -/
def ingestMentionStep (topics : List AnalysisTopic)
    (entityKeys : List (List Char × List Char)) (st : Store)
    (kv : List Char × List Char) : Store :=
  match topics.find? (fun (t : AnalysisTopic) => pyStrip (t.title.getD []) == kv.1) with
  | none => st
  | some td =>
    let topic_text := kv.1 ++ ' ' :: td.summary.getD []
    entityKeys.foldl (ingestMentionInner topic_text kv.2) st

/-- The topic–entity `MENTIONS` loop of `ingest_data`: for each recorded
topic key, any entity whose plain name occurs in the topic's
title+summary text gets a `MENTIONS` edge. -/
def ingestMentions (topics : List AnalysisTopic)
    (topicKeys entityKeys : List (List Char × List Char)) (s : Store) : Store :=
  topicKeys.foldl (ingestMentionStep topics entityKeys) s

/-- Model of `KuzuManager.ingest_data` (src/core/db/kuzu_manager.py:527-675):
the sequential entity loops, run inside one transaction. -/
def ingest_data (s : Store) (res : AnalysisResult) (meeting_id : Option (List Char)) :
    Store :=
  let s1 := ingestPeople s res.people
  let tk := ingestTopics meeting_id s1 res.topics
  let s2 := ingestTasks meeting_id tk.1 res.tasks
  let s3 := ingestDecisions meeting_id tk.2 s2 res.decisions
  let ek := ingestEntities meeting_id s3 res.entities
  let s4 := ingestRelations ek.2 ek.1 res.relations
  ingestMentions res.topics tk.2 ek.2 s4

/-- A row of the similarity query issued by `search_similar_utterances`:
`u.id, u.text, u.startTime, u.endTime, score`. -/
structure SimRow where
  id : List Char
  text : List Char
  start : ℚ
  stop : ℚ
  score : ℚ
deriving DecidableEq

/-- Denotation of the fixed Cypher query issued by
`search_similar_utterances` (src/core/db/kuzu_manager.py:987-997), as
evaluated by the external Kuzu engine: score every utterance with
`array_cosine_similarity` (the abstract parameter `sim`, since cosine
over floats is not embeddable), keep strictly positive scores
(`WHERE score > 0.0`), order by score descending, and take the first
`top_k` rows. -/
def runVectorQuery (sim : List ℚ → List ℚ → ℚ) (uts : List UttNode)
    (qvec : List ℚ) (top_k : Nat) : List SimRow :=
  let scored : List (UttNode × ℚ) := uts.map (fun u => (u, sim u.embedding qvec))
  let passing := scored.filter (fun p => 0 < p.2)
  let sorted := passing.mergeSort (fun a b => decide (b.2 ≤ a.2))
  (sorted.take top_k).map (fun p => ⟨p.1.id, p.1.text, p.1.startTime, p.1.endTime, p.2⟩)

/-- Model of `KuzuManager.search_similar_utterances`
(src/core/db/kuzu_manager.py:983-1004): map the query rows into result
dicts, and return `[]` when the query raises (e.g. the similarity
operator is unavailable).  `queryOutcome` is the engine's behaviour:
either an exception message or the rows of `runVectorQuery`. -/
def search_similar_utterances (queryOutcome : Except (List Char) (List SimRow)) :
    List SimRow :=
  match queryOutcome with
  | .error _ => []
  | .ok rows => rows

/-- Vector-search result dict as rendered by `hybrid_search`
(src/core/agent/hybrid_rag.py:322-330).  The rows produced by
`search_similar_utterances` carry no speaker or meeting title, so those
`vr.get(...)` lookups are optional. -/
structure VecCtx where
  speaker : Option (List Char)
  meeting_title : Option (List Char)
  text : List Char
  start : ℚ
  score : ℚ
deriving DecidableEq

/-- Topic dict after the proposer/decision enrichment loop of
`hybrid_search` (src/core/agent/hybrid_rag.py:272-292). -/
structure TopicCtx where
  title : List Char
  summary : List Char
  proposers : List (List Char)
  decisions : List (List Char)
deriving DecidableEq

/-- Entity dict rendered by `hybrid_search`. -/
structure EntityCtx where
  name : List Char
  entity_type : List Char
  description : List Char
deriving DecidableEq

/-- Entity-relation dict rendered by `hybrid_search`. -/
structure RelCtx where
  source : List Char
  relation_type : List Char
  target : List Char
deriving DecidableEq

/-- Task dict rendered by `hybrid_search` (the assignee field is shown
as stored; `t.get("assignee", "미지정")` already applied). -/
structure TaskCtx where
  description : List Char
  assignee : List Char
  deadline : List Char
  status : List Char
deriving DecidableEq

/-- Decision dict rendered by `hybrid_search`. -/
structure DecCtx where
  description : List Char
deriving DecidableEq

/-- Person dict after the topics/tasks enrichment loop of `hybrid_search`
(src/core/agent/hybrid_rag.py:294-317). -/
structure PersonCtx where
  name : List Char
  role : List Char
  proposed_topics : List (List Char)
  assigned_tasks : List (List Char × List Char)
deriving DecidableEq

/-- Meeting dict rendered by `hybrid_search`. -/
structure MeetingCtx where
  id : List Char
  title : List Char
  date : List Char
deriving DecidableEq

/-- One rendered utterance line of `hybrid_search`
(src/core/agent/hybrid_rag.py:324-330).  `fmt1`/`fmt3` are the `:.1f` /
`:.3f` float renderings, uninterpreted because binary floats are not
embeddable. -/
def vecLine (fmt1 fmt3 : ℚ → List Char) (v : VecCtx) : List Char :=
  let sp := match v.speaker with
            | some s => if s = [] then str "알 수 없음" else s
            | none => str "알 수 없음"
  let mt := match v.meeting_title with
            | some m => if m = [] then [] else str " [" ++ m ++ [']']
            | none => []
  str "- [" ++ fmt1 v.start ++ str "s] **" ++ sp ++ str "**: " ++ v.text ++ mt ++
    str " (유사도: " ++ fmt3 v.score ++ [')']

/-- The rendered lines of one topic: the main line plus one line per
enriched decision (src/core/agent/hybrid_rag.py:334-339). -/
def topicLines (t : TopicCtx) : List (List Char) :=
  let pj := joinSep (str ", ") t.proposers
  let ps := if pj = [] then str "미지정" else pj
  (str "- **" ++ t.title ++ str "**: " ++ t.summary ++ str " (제안: " ++ ps ++ [')'])
    :: t.decisions.map (fun d => str "  → 결정: " ++ d)

/-- One rendered entity line (src/core/agent/hybrid_rag.py:343-347). -/
def entityLine (e : EntityCtx) : List Char :=
  let label := if e.entity_type = [] then [] else '[' :: e.entity_type ++ str "] "
  str "- " ++ label ++ str "**" ++ e.name ++ str "**: " ++ e.description

/-- One rendered entity-relation line (src/core/agent/hybrid_rag.py:351-354). -/
def relLine (er : RelCtx) : List Char :=
  str "- " ++ er.source ++ str " —[" ++ er.relation_type ++ str "]→ " ++ er.target

/-- One rendered task line (src/core/agent/hybrid_rag.py:358-361). -/
def taskLine (t : TaskCtx) : List Char :=
  let deadline := if t.deadline = [] then str "미정" else t.deadline
  str "- " ++ t.description ++ str " (담당: " ++ t.assignee ++ str ", 기한: " ++
    deadline ++ str ", 상태: " ++ t.status ++ [')']

/-- One rendered decision line (src/core/agent/hybrid_rag.py:365-366). -/
def decLine (d : DecCtx) : List Char :=
  str "- " ++ decode_scoped_value d.description

/-- One rendered participant line (src/core/agent/hybrid_rag.py:370-379). -/
def personLine (p : PersonCtx) : List Char :=
  let base := str "- **" ++ p.name ++ str "** (" ++ p.role ++ [')']
  let base := if p.proposed_topics = [] then base
              else base ++ str " | 제안: " ++ joinSep (str ", ") p.proposed_topics
  if p.assigned_tasks = [] then base
  else base ++ str " | 할 일: " ++
    joinSep (str ", ") (p.assigned_tasks.map (fun a => a.1 ++ '(' :: a.2 ++ [')']))

/-- One rendered meeting line (src/core/agent/hybrid_rag.py:383-384). -/
def meetingLine (m : MeetingCtx) : List Char :=
  str "- [" ++ m.id ++ str "] " ++ m.title ++ str " (" ++ m.date ++ [')']

/-- Section heading of the semantic-search group. -/
def vecHeading : List Char := str "## 관련 발언 (의미 기반 검색)"

/-- Section heading of the topics group. -/
def topicsHeading : List Char := str "\n## 주제 (Topic)"

/-- Section heading of the entities group. -/
def entitiesHeading : List Char := str "\n## 핵심 엔티티 (Entity)"

/-- Section heading of the entity-relations group. -/
def relationsHeading : List Char := str "\n## 엔티티 관계"

/-- Section heading of the tasks group. -/
def tasksHeading : List Char := str "\n## 할 일 (Task)"

/-- Section heading of the decisions group. -/
def decisionsHeading : List Char := str "\n## 결정 사항 (Decision)"

/-- Section heading of the participants group. -/
def peopleHeading : List Char := str "\n## 참여자"

/-- Section heading of the meetings group. -/
def meetingsHeading : List Char := str "\n## 회의"

/-- The `context_parts` list built by the merge step of
`hybrid_search` (src/core/agent/hybrid_rag.py:320-384): every non-empty
result group contributes its heading followed by one line per item, in
the fixed source order. -/
def contextParts (fmt1 fmt3 : ℚ → List Char) (vec : List VecCtx)
    (topics : List TopicCtx) (entities : List EntityCtx) (rels : List RelCtx)
    (tasks : List TaskCtx) (decs : List DecCtx) (people : List PersonCtx)
    (meetings : List MeetingCtx) : List (List Char) :=
  (if vec = [] then [] else vecHeading :: vec.map (vecLine fmt1 fmt3)) ++
  (if topics = [] then [] else topicsHeading :: topics.flatMap topicLines) ++
  (if entities = [] then [] else entitiesHeading :: entities.map entityLine) ++
  (if rels = [] then [] else relationsHeading :: rels.map relLine) ++
  (if tasks = [] then [] else tasksHeading :: tasks.map taskLine) ++
  (if decs = [] then [] else decisionsHeading :: decs.map decLine) ++
  (if people = [] then [] else peopleHeading :: people.map personLine) ++
  (if meetings = [] then [] else meetingsHeading :: meetings.map meetingLine)

/-- The `merged_context` value of `hybrid_search`
(src/core/agent/hybrid_rag.py:386): the newline join of `context_parts`,
or the sentinel string when no group produced anything. -/
def merged_context (parts : List (List Char)) : List Char :=
  if parts = [] then str "(검색 결과 없음)" else joinSep ['\n'] parts


/-- A store executor that succeeds and echoes back the executed query as
its single row, used to observe which query `cypher_search` executes. -/
def execEcho : List Char → Except (List Char) (List (List Char)) :=
  fun q => Except.ok [q]


/-- Well-formedness of a store state, as the embedded database maintains
it: primary keys are unique and non-empty (the repository's writers never
store empty-keyed nodes of these kinds), relationship instances are not
duplicated (every edge write is a Cypher `MERGE`), every edge references
existing nodes (the graph engine cannot hold dangling edges), stored
task statuses are canonical (every task write normalizes, cf. C10), and
stored embeddings are non-empty (the schema column is `FLOAT[dim]` with
`dim ≥ 1`). -/
structure StoreWF (s : Store) : Prop where
  meetings_nodup : (s.meetings.map (fun m => m.id)).Nodup
  meetings_key : ∀ m ∈ s.meetings, m.id ≠ []
  people_nodup : (s.people.map (fun p => p.name)).Nodup
  people_key : ∀ p ∈ s.people, p.name ≠ []
  topics_nodup : (s.topics.map (fun t => t.title)).Nodup
  topics_key : ∀ t ∈ s.topics, t.title ≠ []
  tasks_nodup : (s.tasks.map (fun t => t.description)).Nodup
  tasks_key : ∀ t ∈ s.tasks, t.description ≠ []
  tasks_status : ∀ t ∈ s.tasks, t.status ∈ ALLOWED_TASK_STATUSES
  decisions_nodup : (s.decisions.map (fun d => d.description)).Nodup
  decisions_key : ∀ d ∈ s.decisions, d.description ≠ []
  utterances_nodup : (s.utterances.map (fun u => u.id)).Nodup
  utterances_key : ∀ u ∈ s.utterances, u.id ≠ []
  utterances_emb : ∀ u ∈ s.utterances, u.embedding ≠ []
  entities_nodup : (s.entities.map (fun e => e.name)).Nodup
  entities_key : ∀ e ∈ s.entities, e.name ≠ []
  proposed_nodup : s.proposed.Nodup
  proposed_ends : ∀ e ∈ s.proposed,
    hasKey (fun (p : PersonNode) => p.name) s.people e.1 = true ∧
    hasKey (fun (t : TopicNode) => t.title) s.topics e.2 = true
  assigned_nodup : s.assigned_to.Nodup
  assigned_ends : ∀ e ∈ s.assigned_to,
    hasKey (fun (p : PersonNode) => p.name) s.people e.1 = true ∧
    hasKey (fun (t : TaskNode) => t.description) s.tasks e.2 = true
  resulted_nodup : s.resulted_in.Nodup
  resulted_ends : ∀ e ∈ s.resulted_in,
    hasKey (fun (t : TopicNode) => t.title) s.topics e.1 = true ∧
    hasKey (fun (d : DecisionNode) => d.description) s.decisions e.2 = true
  spoke_nodup : s.spoke.Nodup
  spoke_ends : ∀ e ∈ s.spoke,
    hasKey (fun (p : PersonNode) => p.name) s.people e.1 = true ∧
    hasKey (fun (u : UttNode) => u.id) s.utterances e.2 = true
  next_nodup : s.next.Nodup
  next_ends : ∀ e ∈ s.next,
    hasKey (fun (u : UttNode) => u.id) s.utterances e.1 = true ∧
    hasKey (fun (u : UttNode) => u.id) s.utterances e.2 = true
  discussed_nodup : s.discussed.Nodup
  discussed_ends : ∀ e ∈ s.discussed,
    hasKey (fun (m : MeetingNode) => m.id) s.meetings e.1 = true ∧
    hasKey (fun (t : TopicNode) => t.title) s.topics e.2 = true
  contains_nodup : s.contains.Nodup
  contains_ends : ∀ e ∈ s.contains,
    hasKey (fun (m : MeetingNode) => m.id) s.meetings e.1 = true ∧
    hasKey (fun (u : UttNode) => u.id) s.utterances e.2 = true
  has_task_nodup : s.has_task.Nodup
  has_task_ends : ∀ e ∈ s.has_task,
    hasKey (fun (m : MeetingNode) => m.id) s.meetings e.1 = true ∧
    hasKey (fun (t : TaskNode) => t.description) s.tasks e.2 = true
  has_decision_nodup : s.has_decision.Nodup
  has_decision_ends : ∀ e ∈ s.has_decision,
    hasKey (fun (m : MeetingNode) => m.id) s.meetings e.1 = true ∧
    hasKey (fun (d : DecisionNode) => d.description) s.decisions e.2 = true
  related_nodup : s.related_to.Nodup
  related_ends : ∀ e ∈ s.related_to,
    hasKey (fun (x : EntityNode) => x.name) s.entities e.1 = true ∧
    hasKey (fun (x : EntityNode) => x.name) s.entities e.2.2 = true
  mentions_nodup : s.mentions.Nodup
  mentions_ends : ∀ e ∈ s.mentions,
    hasKey (fun (t : TopicNode) => t.title) s.topics e.1 = true ∧
    hasKey (fun (x : EntityNode) => x.name) s.entities e.2 = true
  has_entity_nodup : s.has_entity.Nodup
  has_entity_ends : ∀ e ∈ s.has_entity,
    hasKey (fun (m : MeetingNode) => m.id) s.meetings e.1 = true ∧
    hasKey (fun (x : EntityNode) => x.name) s.entities e.2 = true

/-- A well-formed one-meeting store used to instantiate the round-trip
theorem: every table is populated and every edge endpoint exists. -/
def wfC5Store : Store :=
  { meetings := [⟨str "m_1", str "Kickoff", str "2024-01-02", str "a.txt"⟩]
    people := [⟨str "Alice", str "Member"⟩]
    topics := [⟨str "m_1::Design", str "sum"⟩]
    tasks := [⟨str "m_1::Ship it", str "2024-02-01", str "pending"⟩]
    decisions := [⟨str "m_1::Go"⟩]
    utterances := [⟨str "u1", str "hello", 0, 1, [1, 0]⟩]
    entities := [⟨str "m_1::Kuzu", str "tool", str "db"⟩]
    proposed := [(str "Alice", str "m_1::Design")]
    assigned_to := [(str "Alice", str "m_1::Ship it")]
    resulted_in := [(str "m_1::Design", str "m_1::Go")]
    spoke := [(str "Alice", str "u1")]
    next := []
    discussed := [(str "m_1", str "m_1::Design")]
    contains := [(str "m_1", str "u1")]
    has_task := [(str "m_1", str "m_1::Ship it")]
    has_decision := [(str "m_1", str "m_1::Go")]
    related_to := [(str "m_1::Kuzu", str "uses", str "m_1::Kuzu")]
    mentions := [(str "m_1::Design", str "m_1::Kuzu")]
    has_entity := [(str "m_1", str "m_1::Kuzu")] }

/-- A store with a person whose name is the empty string, exactly what
`ingest_transcript` produces for a segment whose speaker field is `""`
(the `seg.get` default path keeps the empty name).  The restore loop
skips node records with a falsy key, so the export/restore round trip
silently drops this person and their `SPOKE` edge. -/
def cexC5Store : Store :=
  { meetings := [⟨str "m_1", str "T", str "2024-01-01", str "f.txt"⟩]
    people := [⟨[], str "Member"⟩]
    topics := []
    tasks := []
    decisions := []
    utterances := [⟨str "u1", str "hi", 0, 1, [1, 0]⟩]
    entities := []
    proposed := []
    assigned_to := []
    resulted_in := []
    spoke := [([], str "u1")]
    next := []
    discussed := []
    contains := [(str "m_1", str "u1")]
    has_task := []
    has_decision := []
    related_to := []
    mentions := []
    has_entity := [] }

/-! Helper lemmas. -/

theorem splitSepOnce_append : ∀ (d c : List Char), splitSepOnce d = none →
    d.getLast? ≠ some ':' → splitSepOnce (d ++ ':' :: ':' :: c) = some (d, c)
  | [], c, _, _ => by simp [splitSepOnce]
  | [a], c, _, hlast => by
    have ha : ¬ a = ':' := by
      intro h
      exact hlast (by simp [h])
    simp [splitSepOnce, ha]
  | a :: b :: rest, c, hns, hlast => by
    have hcond : ¬ (a = ':' ∧ b = ':') := by
      intro h
      simp [splitSepOnce, h] at hns
    have htail : splitSepOnce (b :: rest) = none := by
      rw [splitSepOnce] at hns
      simp only [if_neg hcond] at hns
      cases h : splitSepOnce (b :: rest) with
      | none => rfl
      | some pr => rw [h] at hns; cases pr; simp at hns
    have hlast2 : (b :: rest).getLast? ≠ some ':' := by
      simpa [List.getLast?_cons_cons] using hlast
    have ih := splitSepOnce_append (b :: rest) c htail hlast2
    simp only [List.cons_append] at ih ⊢
    simp only [splitSepOnce, if_neg hcond, ih]

/-- C1: the scoped-key round trip as amended.  For a `documentId` that
starts with `"m_"`, contains no `"::"`, and does not end in `':'`, and a
`plainText` whose stripped form is non-empty, decoding the scoped value
recovers the *stripped* plain text and the scope is recovered exactly;
for an empty `documentId`, `build_scoped_value` returns the stripped
plain text. -/
theorem scoped_key_roundtrip (d p : List Char)
    (hm : d.take 2 = ['m', '_'])
    (hsep : splitSepOnce d = none)
    (hcolon : d.getLast? ≠ some ':')
    (hp : pyStrip p ≠ []) :
    decode_scoped_value (build_scoped_value d p) = pyStrip p ∧
    extract_scope_from_value (build_scoped_value d p) = d ∧
    (∀ q, build_scoped_value [] q = pyStrip q) := by
  have hd : d ≠ [] := by
    intro h
    subst h
    simp at hm
  have hb : build_scoped_value d p = d ++ ':' :: ':' :: pyStrip p := by
    simp [build_scoped_value, hp, hd]
  have hs := splitSepOnce_append d (pyStrip p) hsep hcolon
  refine ⟨?_, ?_, ?_⟩
  · rw [hb]
    simp [decode_scoped_value, hs]
  · rw [hb]
    simp [extract_scope_from_value, hs, hm]
  · intro q
    by_cases hq : pyStrip q = []
    · simp [build_scoped_value, hq]
    · simp [build_scoped_value, hq]

/-- C1 witness: the amended round trip at `documentId = "m_1"`,
`plainText = " a "`. -/
theorem scoped_key_roundtrip_witness :
    decode_scoped_value (build_scoped_value (str "m_1") (str " a ")) =
      pyStrip (str " a ") ∧
    extract_scope_from_value (build_scoped_value (str "m_1") (str " a ")) =
      str "m_1" := by
  have h := scoped_key_roundtrip (str "m_1") (str " a ")
    (by decide) (by decide) (by decide) (by decide)
  exact ⟨h.1, h.2.1⟩

/-- C1 counterexample: as stated the claim fails — the scope of a
non-`"m_"` documentId is not recovered, a padded plainText is stripped
(so encoding with empty documentId is not the identity), and a
documentId ending in `':'` breaks decoding. -/
theorem scoped_key_claim_false :
    extract_scope_from_value (build_scoped_value (str "doc") (str "a")) ≠ str "doc" ∧
    build_scoped_value [] (str " a ") ≠ str " a " ∧
    decode_scoped_value (build_scoped_value (str "m_1:") (str ":a")) ≠ str ":a" := by
  decide

theorem safe_limit_eq_hintClamp (limit : Int) (h : limit ≠ 0) :
    safe_limit limit = hintClamp limit := by
  simp [safe_limit, hintClamp, h]

theorem safe_limit_bounds (limit : Int) :
    1 ≤ safe_limit limit ∧ safe_limit limit ≤ 200 := by
  unfold safe_limit
  set X : Int := if limit = 0 then 20 else limit with hX
  have h1 : (1 : Int) ≤ max 1 (min X 200) := le_max_left _ _
  have h2 : max 1 (min X 200) ≤ 200 := max_le (by norm_num) (min_le_right _ _)
  omega

/-- C2: the query safety pipeline on the five fixed inputs — the `DELETE`
and `MERGE` queries and the two-statement query are rejected, the empty
query is rejected, and the plain `Topic` query is accepted with a
`LIMIT` clause appended before execution (observed through the echoing
executor). -/
theorem cypher_validator_fixed_inputs :
    (cypher_search (Except.ok (str "MATCH (n) DELETE n RETURN n")) execEcho 20).ok
      = false ∧
    (cypher_search (Except.ok (str "MERGE (n:Foo) RETURN n")) execEcho 20).ok = false ∧
    ((cypher_search (Except.ok (str "MATCH (t:Topic) RETURN t.title")) execEcho 20).ok
      = true ∧
     (cypher_search (Except.ok (str "MATCH (t:Topic) RETURN t.title")) execEcho 20).rows
      = [str "MATCH (t:Topic) RETURN t.title LIMIT 20"]) ∧
    (cypher_search (Except.ok (str "MATCH (a) RETURN a; MATCH (b) RETURN b"))
      execEcho 20).ok = false ∧
    (cypher_search (Except.ok (str "")) execEcho 20).ok = false := by
  decide

/-- C3 (amended): `cypher_search` always returns the structured
`{ok, error, query, rows}` record; on any failure the rows are empty; a
language-model failure, a validation failure and an execution failure
each yield exactly the structured failure with the query so far; and the
limit appended to a query lacking one is `safe_limit`, which equals the
hint clamped into [1, 200] for every non-zero hint (a zero hint is falsy
in Python and is replaced by the default 20) and always lies in
[1, 200]. -/
theorem cypher_search_failure_contract {ρ : Type}
    (gen : Except (List Char) (List Char))
    (exec : List Char → Except (List Char) (List ρ)) (limit : Int) :
    ((cypher_search gen exec limit).ok = false →
      (cypher_search gen exec limit).rows = []) ∧
    (∀ e, gen = Except.error e →
      cypher_search gen exec limit =
        ⟨false, str "Cypher execution failed: " ++ e, [], []⟩) ∧
    (∀ q msg, gen = Except.ok q →
      validate_read_only_cypher (prepared_cypher q limit) = (false, msg) →
      cypher_search gen exec limit = ⟨false, msg, prepared_cypher q limit, []⟩) ∧
    (∀ q v e, gen = Except.ok q →
      validate_read_only_cypher (prepared_cypher q limit) = (true, v) →
      exec (prepared_cypher q limit) = Except.error e →
      cypher_search gen exec limit =
        ⟨false, str "Cypher execution failed: " ++ e, prepared_cypher q limit, []⟩) ∧
    (∀ q, gen = Except.ok q →
      containsSub (pyUpper (pyStrip (rstripSemi q))) (str "LIMIT") = false →
      prepared_cypher q limit =
        pyStrip (rstripSemi q) ++ str " LIMIT " ++ natToDigits (safe_limit limit)) ∧
    (limit ≠ 0 → safe_limit limit = hintClamp limit) ∧
    (1 ≤ safe_limit limit ∧ safe_limit limit ≤ 200) := by
  refine ⟨?_, ?_, ?_, ?_, ?_, safe_limit_eq_hintClamp limit, safe_limit_bounds limit⟩
  · cases gen with
    | error e => intro _; simp [cypher_search]
    | ok q =>
      simp only [cypher_search]
      split
      · intro _; simp
      · cases hx : exec (prepared_cypher q limit) with
        | error e => intro _; simp [hx]
        | ok rows => simp [hx]
  · intro e he
    subst he
    simp [cypher_search]
  · intro q msg hq hv
    subst hq
    simp [cypher_search, hv]
  · intro q v e hq hv hx
    subst hq
    simp [cypher_search, hv, hx]
  · intro q hq hlim
    subst hq
    simp [prepared_cypher, hlim]

/-- C3 witness: the structured failure at a concrete generator error. -/
theorem cypher_search_failure_contract_witness :
    cypher_search (Except.error (str "boom")) execEcho 5 =
      ⟨false, str "Cypher execution failed: " ++ str "boom", [], []⟩ :=
  (cypher_search_failure_contract (Except.error (str "boom")) execEcho 5).2.1
    (str "boom") rfl

/-- C3 counterexample: with row-limit hint 0 the appended limit is the
default 20, not 0 clamped into [1, 200] (which is 1), so the claim as
stated fails at hint 0. -/
theorem cypher_search_zero_hint_cex :
    (cypher_search (Except.ok (str "MATCH (n) RETURN n")) execEcho 0).query =
      str "MATCH (n) RETURN n LIMIT 20" ∧
    hintClamp 0 = 1 ∧
    str "MATCH (n) RETURN n" ++ str " LIMIT " ++ natToDigits (hintClamp 0) ≠
      str "MATCH (n) RETURN n LIMIT 20" := by
  decide

theorem dictGet_dictInsert_self {v : Type} (reg : List (List Char × v))
    (k : List Char) (x : v) : dictGet (dictInsert reg k x) k = some x := by
  induction reg with
  | nil => simp [dictInsert, dictGet]
  | cons p rest ih =>
    obtain ⟨k', x'⟩ := p
    by_cases h : k' = k
    · simp [dictInsert, dictGet, h]
    · simp [dictInsert, dictGet, h, ih]

theorem dictGet_dictInsert_ne {v : Type} (reg : List (List Char × v))
    (k : List Char) (x : v) (m : List Char) (h : m ≠ k) :
    dictGet (dictInsert reg k x) m = dictGet reg m := by
  induction reg with
  | nil => simp [dictInsert, dictGet, Ne.symm h]
  | cons p rest ih =>
    obtain ⟨k', x'⟩ := p
    by_cases hk : k' = k
    · subst hk
      simp [dictInsert, dictGet, Ne.symm h]
    · simp only [dictInsert, if_neg hk]
      by_cases hm : k' = m
      · simp [dictGet, hm]
      · simp [dictGet, hm, ih]

/-- C8: tool registry semantics — registering under an existing name
replaces that entry and leaves every other name's lookup unchanged, and
`execute` always returns a string: an unknown tool name and a handler
exception are both converted into structured error strings naming the
tool, and a successful handler's string is passed through. -/
theorem tool_registry_contract (reg : List (List Char × ToolInfo))
    (n d : List Char)
    (h : List (List Char × List Char) → Except (List Char) (List Char)) :
    dictGet (registryRegister reg n d h) n = some ⟨n, d, h⟩ ∧
    (∀ m, m ≠ n → dictGet (registryRegister reg n d h) m = dictGet reg m) ∧
    (∀ name args, dictGet reg name = none →
      registryExecute reg name args = str "알 수 없는 도구: " ++ name) ∧
    (∀ name args tool e, dictGet reg name = some tool →
      tool.handler args = Except.error e →
      registryExecute reg name args =
        str "도구 실행 오류 (" ++ name ++ str "): " ++ e) ∧
    (∀ name args tool out, dictGet reg name = some tool →
      tool.handler args = Except.ok out →
      registryExecute reg name args = out) := by
  refine ⟨dictGet_dictInsert_self reg n _, ?_, ?_, ?_, ?_⟩
  · intro m hm
    exact dictGet_dictInsert_ne reg n _ m hm
  · intro name args hnone
    simp [registryExecute, hnone]
  · intro name args tool e htool herr
    simp [registryExecute, htool, herr]
  · intro name args tool out htool hok
    simp [registryExecute, htool, hok]

/-- C8 witness: a two-entry registry where re-registering `"t"` replaces
the entry, `"u"` is untouched, and a raising handler is converted into
the structured error string. -/
theorem tool_registry_contract_witness :
    dictGet (registryRegister
      [(str "t", ⟨str "t", str "old", fun _ => Except.ok (str "ok")⟩),
       (str "u", ⟨str "u", str "other", fun _ => Except.ok (str "ok-u")⟩)]
      (str "t") (str "new") (fun _ => Except.error (str "bad")))
      (str "t")
      = some ⟨str "t", str "new", fun _ => Except.error (str "bad")⟩ ∧
    registryExecute
      [(str "t", ⟨str "t", str "new", fun _ => Except.error (str "bad")⟩)]
      (str "t") []
      = str "도구 실행 오류 (" ++ str "t" ++ str "): " ++ str "bad" := by
  have h := tool_registry_contract
    [(str "t", ⟨str "t", str "old", fun _ => Except.ok (str "ok")⟩),
     (str "u", ⟨str "u", str "other", fun _ => Except.ok (str "ok-u")⟩)]
    (str "t") (str "new") (fun _ => Except.error (str "bad"))
  have h2 := tool_registry_contract
    [(str "t", ⟨str "t", str "new", fun _ => Except.error (str "bad")⟩)]
    (str "t") (str "new") (fun _ => Except.error (str "bad"))
  refine ⟨h.1, ?_⟩
  exact h2.2.2.2.1 (str "t") []
    ⟨str "t", str "new", fun _ => Except.error (str "bad")⟩ (str "bad")
    (by simp [dictGet]) rfl

theorem lastHumanAux_skip : ∀ (l : List ChatMessage),
    (∀ x, ChatMessage.human x ∉ l) →
    ∀ (c : List Char) (r : List ChatMessage),
    lastHumanAux (l ++ ChatMessage.human c :: r) = c
  | [], _, c, r => by simp [lastHumanAux]
  | m :: rest, h, c, r => by
    cases m with
    | human x => exact absurd (List.mem_cons_self _ _) (h x)
    | ai x =>
      simp only [List.cons_append, lastHumanAux]
      exact lastHumanAux_skip rest (fun y hy => h y (List.mem_cons_of_mem _ hy)) c r
    | system x =>
      simp only [List.cons_append, lastHumanAux]
      exact lastHumanAux_skip rest (fun y hy => h y (List.mem_cons_of_mem _ hy)) c r

/-- C9: when the router's language-model output fails to parse,
`router_node` selects the `hybrid_search` tool with the most recent
`HumanMessage` content as its `query` argument — never any other
tool. -/
theorem router_fallback (pre suf : List ChatMessage) (c : List Char)
    (hsuf : ∀ x, ChatMessage.human x ∉ suf) :
    router_node (pre ++ ChatMessage.human c :: suf) none =
      ⟨str "hybrid_search", [(str "query", c)]⟩ := by
  have h1 : (pre ++ ChatMessage.human c :: suf).reverse
      = suf.reverse ++ ChatMessage.human c :: pre.reverse := by
    simp [List.reverse_append]
  rw [router_node, h1,
    lastHumanAux_skip suf.reverse (fun x hx => hsuf x (List.mem_reverse.mp hx))
      c pre.reverse]

/-- C9 witness: parse failure over a concrete three-message history falls
back to hybrid search with the single user message as the query. -/
theorem router_fallback_witness :
    router_node [ChatMessage.ai (str "hi"), ChatMessage.human (str "질문"),
      ChatMessage.ai (str "답")] none =
      ⟨str "hybrid_search", [(str "query", str "질문")]⟩ :=
  router_fallback [ChatMessage.ai (str "hi")] [ChatMessage.ai (str "답")]
    (str "질문") (by intro x hx; simp at hx)

/-- C4: transactional atomicity of transcript ingestion — a missing
embedding list (with at least one segment) or a length mismatch makes
`ingest_transcript` raise rather than substituting a zero vector, and
whenever it raises, for any reason, the committed store afterwards equals
the store before the call (the transaction rolls back every write of the
same call). -/
theorem ingest_transcript_atomic (s : Store) (segs : List Segment)
    (embs : Option (List (List ℚ))) (mid : Option (List Char)) :
    (((embs = none ∧ segs ≠ []) ∨
      (∃ es, embs = some es ∧ es.length ≠ segs.length)) →
      ∃ e, (ingest_transcript s segs embs mid).1 = Except.error e) ∧
    (∀ e, (ingest_transcript s segs embs mid).1 = Except.error e →
      (ingest_transcript s segs embs mid).2 = s) := by
  constructor
  · intro hbad
    rcases hbad with ⟨hn, hne⟩ | ⟨es, hes, hlen⟩
    · subst hn
      cases segs with
      | nil => exact absurd rfl hne
      | cons a rest =>
        refine ⟨str "Missing embedding for segment " ++ natToDigits 0, ?_⟩
        simp [ingest_transcript, ingestLoop]
    · subst hes
      refine ⟨str "Embedding count mismatch", ?_⟩
      unfold ingest_transcript
      rw [if_pos (by simpa using hlen)]
  · intro e he
    unfold ingest_transcript at he ⊢
    split at he
    · rename_i hcond
      rw [if_pos hcond]
    · rename_i hcond
      rw [if_neg hcond]
      split at he
      · simp at he
      · rfl

/-- C4 witness: one segment with no embedding list raises and leaves the
empty store untouched. -/
theorem ingest_transcript_atomic_witness :
    (∃ e, (ingest_transcript emptyStore [⟨0, 1, str "hi", none⟩] none none).1
      = Except.error e) ∧
    (ingest_transcript emptyStore [⟨0, 1, str "hi", none⟩] none none).2
      = emptyStore := by
  have h := ingest_transcript_atomic emptyStore [⟨0, 1, str "hi", none⟩] none none
  obtain ⟨e, he⟩ := h.1 (Or.inl ⟨rfl, by simp⟩)
  exact ⟨⟨e, he⟩, h.2 e he⟩

/-- C6 (amended): the semantic-search contract — an unavailable
similarity operator yields `[]` instead of raising, and on success the
rows are at most `top_k` utterances with strictly positive similarity,
carrying the stored id/text/timestamps and score, in score-descending
order; every passing utterance is either returned or scores no higher
than every returned row. -/
theorem semantic_search_contract (sim : List ℚ → List ℚ → ℚ) (uts : List UttNode)
    (qvec : List ℚ) (k : Nat) (e : List Char) :
    search_similar_utterances (Except.error e) = [] ∧
    (search_similar_utterances (Except.ok (runVectorQuery sim uts qvec k))).length ≤ k ∧
    List.Sorted (fun a b => b ≤ a)
      ((search_similar_utterances (Except.ok (runVectorQuery sim uts qvec k))).map
        (fun r => r.score)) ∧
    (∀ r ∈ search_similar_utterances (Except.ok (runVectorQuery sim uts qvec k)),
      0 < r.score ∧ ∃ u ∈ uts, r.id = u.id ∧ r.text = u.text ∧
        r.start = u.startTime ∧ r.stop = u.endTime ∧ r.score = sim u.embedding qvec) ∧
    (∀ u ∈ uts, 0 < sim u.embedding qvec →
      (∃ r ∈ search_similar_utterances (Except.ok (runVectorQuery sim uts qvec k)),
        r.id = u.id ∧ r.score = sim u.embedding qvec) ∨
      (∀ r ∈ search_similar_utterances (Except.ok (runVectorQuery sim uts qvec k)),
        sim u.embedding qvec ≤ r.score)) := by
  have htrans : ∀ (a b c : UttNode × ℚ),
      (fun a b => decide (b.2 ≤ a.2)) a b = true →
      (fun a b => decide (b.2 ≤ a.2)) b c = true →
      (fun a b => decide (b.2 ≤ a.2)) a c = true := by
    intro a b c hab hbc
    simp only [decide_eq_true_eq] at *
    exact le_trans hbc hab
  have htotal : ∀ (a b : UttNode × ℚ),
      ((fun a b => decide (b.2 ≤ a.2)) a b || (fun a b => decide (b.2 ≤ a.2)) b a)
        = true := by
    intro a b
    simp only [Bool.or_eq_true, decide_eq_true_eq]
    exact le_total b.2 a.2
  have hsorted := List.sorted_mergeSort htrans htotal
    ((uts.map (fun u => (u, sim u.embedding qvec))).filter (fun p => 0 < p.2))
  have hsorted2 : List.Pairwise (fun p q : UttNode × ℚ => q.2 ≤ p.2)
      (((uts.map (fun u => (u, sim u.embedding qvec))).filter
        (fun p => 0 < p.2)).mergeSort (fun a b => decide (b.2 ≤ a.2))) :=
    hsorted.imp (fun h => of_decide_eq_true h)
  refine ⟨rfl, ?_, ?_, ?_, ?_⟩
  · simp [search_similar_utterances, runVectorQuery]
  · have h2 := hsorted2.sublist (List.take_sublist k _)
    simp only [search_similar_utterances, runVectorQuery, List.map_map]
    exact List.pairwise_map.mpr h2
  · intro r hr
    simp only [search_similar_utterances, runVectorQuery, List.mem_map] at hr
    obtain ⟨p, hp, rfl⟩ := hr
    have hp2 := List.mem_of_mem_take hp
    have hp3 := (List.mergeSort_perm ((uts.map (fun u => (u, sim u.embedding qvec))).filter
      (fun p => 0 < p.2)) (fun a b => decide (b.2 ≤ a.2))).subset hp2
    obtain ⟨hsc, hpos⟩ := List.mem_filter.mp hp3
    obtain ⟨u, hu, rfl⟩ := List.mem_map.mp hsc
    exact ⟨of_decide_eq_true hpos, u, hu, rfl, rfl, rfl, rfl, rfl⟩
  · intro u hu hpos
    have hpmem : (u, sim u.embedding qvec) ∈
        (uts.map (fun u => (u, sim u.embedding qvec))).filter (fun p => 0 < p.2) :=
      List.mem_filter.mpr ⟨List.mem_map.mpr ⟨u, hu, rfl⟩, decide_eq_true hpos⟩
    have hmem2 : (u, sim u.embedding qvec) ∈
        ((uts.map (fun u => (u, sim u.embedding qvec))).filter
          (fun p => 0 < p.2)).mergeSort (fun a b => decide (b.2 ≤ a.2)) :=
      ((List.mergeSort_perm _ _).symm.subset) hpmem
    rw [← List.take_append_drop k (((uts.map (fun u => (u, sim u.embedding qvec))).filter
      (fun p => 0 < p.2)).mergeSort (fun a b => decide (b.2 ≤ a.2)))] at hmem2
    rcases List.mem_append.mp hmem2 with hin | hout
    · left
      refine ⟨⟨u.id, u.text, u.startTime, u.endTime, sim u.embedding qvec⟩, ?_, rfl, rfl⟩
      simp only [search_similar_utterances, runVectorQuery]
      exact List.mem_map.mpr ⟨(u, sim u.embedding qvec), hin, rfl⟩
    · right
      intro r hr
      simp only [search_similar_utterances, runVectorQuery, List.mem_map] at hr
      obtain ⟨q, hq, rfl⟩ := hr
      have hsplit := hsorted2
      rw [← List.take_append_drop k (((uts.map (fun u => (u, sim u.embedding qvec))).filter
        (fun p => 0 < p.2)).mergeSort (fun a b => decide (b.2 ≤ a.2)))] at hsplit
      exact (List.pairwise_append.mp hsplit).2.2 q hq _ hout

/-- C6 witness: a raising similarity query yields the empty result. -/
theorem semantic_search_contract_witness :
    search_similar_utterances (Except.error (str "no cosine operator")) = [] :=
  (semantic_search_contract (fun _ _ => 0) [] [] 5 (str "no cosine operator")).1

/-- C6 counterexample: a stored utterance whose similarity to the query
vector is negative is removed by the code's `WHERE score > 0.0` clause,
so the top-1 request returns no rows even though one utterance exists —
the claim's unconditional top-K ranking does not hold. -/
theorem semantic_search_positive_filter_cex :
    search_similar_utterances (Except.ok (runVectorQuery
      (fun _ _ => (-1 : ℚ)) [⟨str "u1", str "t", 0, 1, [1]⟩] [1] 1)) = [] ∧
    ([⟨str "u1", str "t", 0, 1, [1]⟩] : List UttNode) ≠ [] := by
  refine ⟨?_, by simp⟩
  simp [search_similar_utterances, runVectorQuery]

theorem vecLine_head (f g : ℚ → List Char) (v : VecCtx) :
    (vecLine f g v).head? = some '-' := rfl

theorem entityLine_head (e : EntityCtx) : (entityLine e).head? = some '-' := rfl

theorem relLine_head (er : RelCtx) : (relLine er).head? = some '-' := rfl

theorem taskLine_head (t : TaskCtx) : (taskLine t).head? = some '-' := rfl

theorem decLine_head (d : DecCtx) : (decLine d).head? = some '-' := rfl

theorem meetingLine_head (m : MeetingCtx) : (meetingLine m).head? = some '-' := rfl

theorem personLine_head (p : PersonCtx) : (personLine p).head? = some '-' := by
  by_cases h1 : p.proposed_topics = [] <;> by_cases h2 : p.assigned_tasks = [] <;>
    simp only [personLine, h1, h2] <;> rfl

theorem map_line_head {α : Type} (f : α → List Char)
    (hf : ∀ x, (f x).head? = some '-') (l : List α) :
    ∀ c ∈ l.map f, c.head? = some '-' ∨ c.head? = some ' ' := by
  intro c hc
  obtain ⟨x, hx, rfl⟩ := List.mem_map.mp hc
  exact Or.inl (hf x)

theorem topic_items_head (topics : List TopicCtx) :
    ∀ c ∈ topics.flatMap topicLines, c.head? = some '-' ∨ c.head? = some ' ' := by
  intro c hc
  obtain ⟨t, ht, hmem⟩ := List.mem_flatMap.mp hc
  rcases List.mem_cons.mp hmem with rfl | hsub
  · exact Or.inl rfl
  · obtain ⟨d, hd, rfl⟩ := List.mem_map.mp hsub
    exact Or.inr rfl

theorem not_mem_of_head_ne (t : List Char) (items : List (List Char))
    (hh : t.head? = some '\n' ∨ t.head? = some '#')
    (hi : ∀ c ∈ items, c.head? = some '-' ∨ c.head? = some ' ') : t ∉ items := by
  intro hmem
  rcases hi t hmem with h1 | h1 <;> rcases hh with h2 | h2 <;>
    rw [h1] at h2 <;> simp at h2

theorem mem_self_block {α : Type} [DecidableEq α] (t : List Char) (g : List α)
    (items : List (List Char)) :
    t ∈ (if g = [] then [] else t :: items) ↔ g ≠ [] := by
  by_cases hg : g = [] <;> simp [hg]

theorem not_mem_block {α : Type} [DecidableEq α] (t hd : List Char) (g : List α)
    (items : List (List Char)) (hne : t ≠ hd)
    (hh : t.head? = some '\n' ∨ t.head? = some '#')
    (hi : ∀ c ∈ items, c.head? = some '-' ∨ c.head? = some ' ') :
    t ∉ (if g = [] then [] else hd :: items) := by
  by_cases hg : g = []
  · simp [hg]
  · simp only [if_neg hg, List.mem_cons]
    rintro (rfl | hmem)
    · exact hne rfl
    · exact not_mem_of_head_ne t items hh hi hmem

/-- C7: fusion output shape — when every retrieval mode returns an empty
result the merged context is the sentinel "no results" string; when the
semantic results are non-empty their section heads the rendered parts;
and each group's stable section heading appears in the rendered parts
exactly when that group is non-empty. -/
theorem hybrid_fusion_shape (fmt1 fmt3 : ℚ → List Char) (vec : List VecCtx)
    (topics : List TopicCtx) (entities : List EntityCtx) (rels : List RelCtx)
    (tasks : List TaskCtx) (decs : List DecCtx) (people : List PersonCtx)
    (meetings : List MeetingCtx) :
    (vec = [] → topics = [] → entities = [] → rels = [] → tasks = [] →
      decs = [] → people = [] → meetings = [] →
      merged_context (contextParts fmt1 fmt3 vec topics entities rels tasks decs people meetings) = str "(검색 결과 없음)") ∧
    (vec ≠ [] → (contextParts fmt1 fmt3 vec topics entities rels tasks decs people meetings).head? = some vecHeading) ∧
    (vecHeading ∈ contextParts fmt1 fmt3 vec topics entities rels tasks decs people meetings ↔ vec ≠ []) ∧
    (topicsHeading ∈ contextParts fmt1 fmt3 vec topics entities rels tasks decs people meetings ↔ topics ≠ []) ∧
    (entitiesHeading ∈ contextParts fmt1 fmt3 vec topics entities rels tasks decs people meetings ↔ entities ≠ []) ∧
    (relationsHeading ∈ contextParts fmt1 fmt3 vec topics entities rels tasks decs people meetings ↔ rels ≠ []) ∧
    (tasksHeading ∈ contextParts fmt1 fmt3 vec topics entities rels tasks decs people meetings ↔ tasks ≠ []) ∧
    (decisionsHeading ∈ contextParts fmt1 fmt3 vec topics entities rels tasks decs people meetings ↔ decs ≠ []) ∧
    (peopleHeading ∈ contextParts fmt1 fmt3 vec topics entities rels tasks decs people meetings ↔ people ≠ []) ∧
    (meetingsHeading ∈ contextParts fmt1 fmt3 vec topics entities rels tasks decs people meetings ↔ meetings ≠ []) := by
  refine ⟨?_, ?_, ?_, ?_, ?_, ?_, ?_, ?_, ?_, ?_⟩
  · intro h1 h2 h3 h4 h5 h6 h7 h8
    subst h1; subst h2; subst h3; subst h4
    subst h5; subst h6; subst h7; subst h8
    rfl
  · intro hvec
    simp only [contextParts, if_neg hvec]
    rfl
  · constructor
    · intro hmem
      simp only [contextParts, List.mem_append, or_assoc] at hmem
      rcases hmem with h | h | h | h | h | h | h | h
      · exact (mem_self_block _ _ _).mp h
      · exact absurd h (not_mem_block _ _ _ _ (by decide) (Or.inr rfl) (topic_items_head topics))
      · exact absurd h (not_mem_block _ _ _ _ (by decide) (Or.inr rfl) (map_line_head entityLine entityLine_head entities))
      · exact absurd h (not_mem_block _ _ _ _ (by decide) (Or.inr rfl) (map_line_head relLine relLine_head rels))
      · exact absurd h (not_mem_block _ _ _ _ (by decide) (Or.inr rfl) (map_line_head taskLine taskLine_head tasks))
      · exact absurd h (not_mem_block _ _ _ _ (by decide) (Or.inr rfl) (map_line_head decLine decLine_head decs))
      · exact absurd h (not_mem_block _ _ _ _ (by decide) (Or.inr rfl) (map_line_head personLine personLine_head people))
      · exact absurd h (not_mem_block _ _ _ _ (by decide) (Or.inr rfl) (map_line_head meetingLine meetingLine_head meetings))
    · intro hne
      unfold contextParts
      refine List.mem_append_left _ (List.mem_append_left _ (List.mem_append_left _ (List.mem_append_left _ (List.mem_append_left _ (List.mem_append_left _ (List.mem_append_left _ (?_)))))))
      rw [if_neg hne]
      exact List.mem_cons_self _ _
  · constructor
    · intro hmem
      simp only [contextParts, List.mem_append, or_assoc] at hmem
      rcases hmem with h | h | h | h | h | h | h | h
      · exact absurd h (not_mem_block _ _ _ _ (by decide) (Or.inl rfl) (map_line_head (vecLine fmt1 fmt3) (vecLine_head fmt1 fmt3) vec))
      · exact (mem_self_block _ _ _).mp h
      · exact absurd h (not_mem_block _ _ _ _ (by decide) (Or.inl rfl) (map_line_head entityLine entityLine_head entities))
      · exact absurd h (not_mem_block _ _ _ _ (by decide) (Or.inl rfl) (map_line_head relLine relLine_head rels))
      · exact absurd h (not_mem_block _ _ _ _ (by decide) (Or.inl rfl) (map_line_head taskLine taskLine_head tasks))
      · exact absurd h (not_mem_block _ _ _ _ (by decide) (Or.inl rfl) (map_line_head decLine decLine_head decs))
      · exact absurd h (not_mem_block _ _ _ _ (by decide) (Or.inl rfl) (map_line_head personLine personLine_head people))
      · exact absurd h (not_mem_block _ _ _ _ (by decide) (Or.inl rfl) (map_line_head meetingLine meetingLine_head meetings))
    · intro hne
      unfold contextParts
      refine List.mem_append_left _ (List.mem_append_left _ (List.mem_append_left _ (List.mem_append_left _ (List.mem_append_left _ (List.mem_append_left _ (List.mem_append_right _ ?_))))))
      rw [if_neg hne]
      exact List.mem_cons_self _ _
  · constructor
    · intro hmem
      simp only [contextParts, List.mem_append, or_assoc] at hmem
      rcases hmem with h | h | h | h | h | h | h | h
      · exact absurd h (not_mem_block _ _ _ _ (by decide) (Or.inl rfl) (map_line_head (vecLine fmt1 fmt3) (vecLine_head fmt1 fmt3) vec))
      · exact absurd h (not_mem_block _ _ _ _ (by decide) (Or.inl rfl) (topic_items_head topics))
      · exact (mem_self_block _ _ _).mp h
      · exact absurd h (not_mem_block _ _ _ _ (by decide) (Or.inl rfl) (map_line_head relLine relLine_head rels))
      · exact absurd h (not_mem_block _ _ _ _ (by decide) (Or.inl rfl) (map_line_head taskLine taskLine_head tasks))
      · exact absurd h (not_mem_block _ _ _ _ (by decide) (Or.inl rfl) (map_line_head decLine decLine_head decs))
      · exact absurd h (not_mem_block _ _ _ _ (by decide) (Or.inl rfl) (map_line_head personLine personLine_head people))
      · exact absurd h (not_mem_block _ _ _ _ (by decide) (Or.inl rfl) (map_line_head meetingLine meetingLine_head meetings))
    · intro hne
      unfold contextParts
      refine List.mem_append_left _ (List.mem_append_left _ (List.mem_append_left _ (List.mem_append_left _ (List.mem_append_left _ (List.mem_append_right _ ?_)))))
      rw [if_neg hne]
      exact List.mem_cons_self _ _
  · constructor
    · intro hmem
      simp only [contextParts, List.mem_append, or_assoc] at hmem
      rcases hmem with h | h | h | h | h | h | h | h
      · exact absurd h (not_mem_block _ _ _ _ (by decide) (Or.inl rfl) (map_line_head (vecLine fmt1 fmt3) (vecLine_head fmt1 fmt3) vec))
      · exact absurd h (not_mem_block _ _ _ _ (by decide) (Or.inl rfl) (topic_items_head topics))
      · exact absurd h (not_mem_block _ _ _ _ (by decide) (Or.inl rfl) (map_line_head entityLine entityLine_head entities))
      · exact (mem_self_block _ _ _).mp h
      · exact absurd h (not_mem_block _ _ _ _ (by decide) (Or.inl rfl) (map_line_head taskLine taskLine_head tasks))
      · exact absurd h (not_mem_block _ _ _ _ (by decide) (Or.inl rfl) (map_line_head decLine decLine_head decs))
      · exact absurd h (not_mem_block _ _ _ _ (by decide) (Or.inl rfl) (map_line_head personLine personLine_head people))
      · exact absurd h (not_mem_block _ _ _ _ (by decide) (Or.inl rfl) (map_line_head meetingLine meetingLine_head meetings))
    · intro hne
      unfold contextParts
      refine List.mem_append_left _ (List.mem_append_left _ (List.mem_append_left _ (List.mem_append_left _ (List.mem_append_right _ ?_))))
      rw [if_neg hne]
      exact List.mem_cons_self _ _
  · constructor
    · intro hmem
      simp only [contextParts, List.mem_append, or_assoc] at hmem
      rcases hmem with h | h | h | h | h | h | h | h
      · exact absurd h (not_mem_block _ _ _ _ (by decide) (Or.inl rfl) (map_line_head (vecLine fmt1 fmt3) (vecLine_head fmt1 fmt3) vec))
      · exact absurd h (not_mem_block _ _ _ _ (by decide) (Or.inl rfl) (topic_items_head topics))
      · exact absurd h (not_mem_block _ _ _ _ (by decide) (Or.inl rfl) (map_line_head entityLine entityLine_head entities))
      · exact absurd h (not_mem_block _ _ _ _ (by decide) (Or.inl rfl) (map_line_head relLine relLine_head rels))
      · exact (mem_self_block _ _ _).mp h
      · exact absurd h (not_mem_block _ _ _ _ (by decide) (Or.inl rfl) (map_line_head decLine decLine_head decs))
      · exact absurd h (not_mem_block _ _ _ _ (by decide) (Or.inl rfl) (map_line_head personLine personLine_head people))
      · exact absurd h (not_mem_block _ _ _ _ (by decide) (Or.inl rfl) (map_line_head meetingLine meetingLine_head meetings))
    · intro hne
      unfold contextParts
      refine List.mem_append_left _ (List.mem_append_left _ (List.mem_append_left _ (List.mem_append_right _ ?_)))
      rw [if_neg hne]
      exact List.mem_cons_self _ _
  · constructor
    · intro hmem
      simp only [contextParts, List.mem_append, or_assoc] at hmem
      rcases hmem with h | h | h | h | h | h | h | h
      · exact absurd h (not_mem_block _ _ _ _ (by decide) (Or.inl rfl) (map_line_head (vecLine fmt1 fmt3) (vecLine_head fmt1 fmt3) vec))
      · exact absurd h (not_mem_block _ _ _ _ (by decide) (Or.inl rfl) (topic_items_head topics))
      · exact absurd h (not_mem_block _ _ _ _ (by decide) (Or.inl rfl) (map_line_head entityLine entityLine_head entities))
      · exact absurd h (not_mem_block _ _ _ _ (by decide) (Or.inl rfl) (map_line_head relLine relLine_head rels))
      · exact absurd h (not_mem_block _ _ _ _ (by decide) (Or.inl rfl) (map_line_head taskLine taskLine_head tasks))
      · exact (mem_self_block _ _ _).mp h
      · exact absurd h (not_mem_block _ _ _ _ (by decide) (Or.inl rfl) (map_line_head personLine personLine_head people))
      · exact absurd h (not_mem_block _ _ _ _ (by decide) (Or.inl rfl) (map_line_head meetingLine meetingLine_head meetings))
    · intro hne
      unfold contextParts
      refine List.mem_append_left _ (List.mem_append_left _ (List.mem_append_right _ ?_))
      rw [if_neg hne]
      exact List.mem_cons_self _ _
  · constructor
    · intro hmem
      simp only [contextParts, List.mem_append, or_assoc] at hmem
      rcases hmem with h | h | h | h | h | h | h | h
      · exact absurd h (not_mem_block _ _ _ _ (by decide) (Or.inl rfl) (map_line_head (vecLine fmt1 fmt3) (vecLine_head fmt1 fmt3) vec))
      · exact absurd h (not_mem_block _ _ _ _ (by decide) (Or.inl rfl) (topic_items_head topics))
      · exact absurd h (not_mem_block _ _ _ _ (by decide) (Or.inl rfl) (map_line_head entityLine entityLine_head entities))
      · exact absurd h (not_mem_block _ _ _ _ (by decide) (Or.inl rfl) (map_line_head relLine relLine_head rels))
      · exact absurd h (not_mem_block _ _ _ _ (by decide) (Or.inl rfl) (map_line_head taskLine taskLine_head tasks))
      · exact absurd h (not_mem_block _ _ _ _ (by decide) (Or.inl rfl) (map_line_head decLine decLine_head decs))
      · exact (mem_self_block _ _ _).mp h
      · exact absurd h (not_mem_block _ _ _ _ (by decide) (Or.inl rfl) (map_line_head meetingLine meetingLine_head meetings))
    · intro hne
      unfold contextParts
      refine List.mem_append_left _ (List.mem_append_right _ ?_)
      rw [if_neg hne]
      exact List.mem_cons_self _ _
  · constructor
    · intro hmem
      simp only [contextParts, List.mem_append, or_assoc] at hmem
      rcases hmem with h | h | h | h | h | h | h | h
      · exact absurd h (not_mem_block _ _ _ _ (by decide) (Or.inl rfl) (map_line_head (vecLine fmt1 fmt3) (vecLine_head fmt1 fmt3) vec))
      · exact absurd h (not_mem_block _ _ _ _ (by decide) (Or.inl rfl) (topic_items_head topics))
      · exact absurd h (not_mem_block _ _ _ _ (by decide) (Or.inl rfl) (map_line_head entityLine entityLine_head entities))
      · exact absurd h (not_mem_block _ _ _ _ (by decide) (Or.inl rfl) (map_line_head relLine relLine_head rels))
      · exact absurd h (not_mem_block _ _ _ _ (by decide) (Or.inl rfl) (map_line_head taskLine taskLine_head tasks))
      · exact absurd h (not_mem_block _ _ _ _ (by decide) (Or.inl rfl) (map_line_head decLine decLine_head decs))
      · exact absurd h (not_mem_block _ _ _ _ (by decide) (Or.inl rfl) (map_line_head personLine personLine_head people))
      · exact (mem_self_block _ _ _).mp h
    · intro hne
      unfold contextParts
      refine List.mem_append_right _ ?_
      rw [if_neg hne]
      exact List.mem_cons_self _ _

/-- C7 witness: all groups empty yields the sentinel, a non-empty
semantic group leads with its heading. -/
theorem hybrid_fusion_shape_witness :
    merged_context (contextParts (fun _ => []) (fun _ => []) [] [] [] [] [] [] [] [])
      = str "(검색 결과 없음)" ∧
    (contextParts (fun _ => []) (fun _ => [])
      [⟨none, none, str "hi", 0, 0⟩] [] [] [] [] [] [] []).head? = some vecHeading := by
  have h := hybrid_fusion_shape (fun _ => []) (fun _ => []) [] [] [] [] [] [] [] []
  have h2 := hybrid_fusion_shape (fun _ => []) (fun _ => [])
    [⟨none, none, str "hi", 0, 0⟩] [] [] [] [] [] [] []
  exact ⟨h.1 rfl rfl rfl rfl rfl rfl rfl rfl, h2.2.1 (by simp)⟩

theorem normalize_mem_allowed (raw : List Char) :
    normalize_task_status raw ∈ ALLOWED_TASK_STATUSES := by
  simp only [normalize_task_status]
  by_cases h : lookupAlias (pyLower (pyStrip raw)) ∈ ALLOWED_TASK_STATUSES
  · rw [if_pos h]
    exact h
  · rw [if_neg h]
    decide

theorem mem_upsertByKey {α : Type} (key : α → List Char) (l : List α) (x y : α)
    (h : y ∈ upsertByKey key l x) : y ∈ l ∨ y = x := by
  unfold upsertByKey at h
  split at h
  · obtain ⟨z, hz, hzy⟩ := List.mem_map.mp h
    by_cases hk : (key z == key x) = true
    · rw [if_pos hk] at hzy
      exact Or.inr hzy.symm
    · rw [if_neg hk] at hzy
      subst hzy
      exact Or.inl hz
  · rcases List.mem_append.mp h with h2 | h2
    · exact Or.inl h2
    · exact Or.inr (List.mem_singleton.mp h2)

theorem mem_keepByKey {α : Type} (key : α → List Char) (l : List α) (x y : α)
    (h : y ∈ keepByKey key l x) : y ∈ l ∨ y = x := by
  unfold keepByKey at h
  split at h
  · exact Or.inl h
  · rcases List.mem_append.mp h with h2 | h2
    · exact Or.inl h2
    · exact Or.inr (List.mem_singleton.mp h2)

theorem mem_restoreKeyedWith {α β : Type} (key : α → List Char)
    (keyOf : β → List Char) (tr : β → α) (items : List β) :
    ∀ (acc : List α) (y : α), y ∈ restoreKeyedWith key keyOf tr acc items →
      y ∈ acc ∨ ∃ x ∈ items, y = tr x := by
  induction items with
  | nil => intro acc y h; exact Or.inl h
  | cons x rest ih =>
    intro acc y h
    simp only [restoreKeyedWith, List.foldl_cons] at h
    have h2 := ih _ y h
    rcases h2 with h2 | ⟨z, hz, rfl⟩
    · by_cases hk : keyOf x = []
      · rw [if_pos hk] at h2
        exact Or.inl h2
      · rw [if_neg hk] at h2
        rcases mem_upsertByKey key acc (tr x) y h2 with h3 | h3
        · exact Or.inl h3
        · exact Or.inr ⟨x, List.mem_cons_self _ _, h3⟩
    · exact Or.inr ⟨z, List.mem_cons_of_mem _ hz, rfl⟩

theorem foldl_preserve {σ β : Type} (f : σ → β → σ) (P : σ → Prop)
    (hf : ∀ s b, P s → P (f s b)) :
    ∀ (l : List β) (s : σ), P s → P (l.foldl f s) := by
  intro l
  induction l with
  | nil => intro s hs; exact hs
  | cons b rest ih =>
    intro s hs
    exact ih (f s b) (hf s b hs)

theorem ingestPersonStep_tasks (st : Store) (p : AnalysisPerson) :
    (ingestPersonStep st p).tasks = st.tasks := rfl

theorem ingestTopicStep_tasks (mId : Option (List Char))
    (acc : Store × List (List Char × List Char)) (t : AnalysisTopic) :
    (ingestTopicStep mId acc t).1.tasks = acc.1.tasks := by
  simp only [ingestTopicStep]
  repeat' split
  all_goals rfl

theorem ingestTaskStep_tasks_mem (mId : Option (List Char)) (st : Store)
    (task : AnalysisTask) (y : TaskNode)
    (h : y ∈ (ingestTaskStep mId st task).tasks) :
    y ∈ st.tasks ∨ y.status ∈ ALLOWED_TASK_STATUSES := by
  have heq : (ingestTaskStep mId st task).tasks =
      keepByKey (fun (x : TaskNode) => x.description) st.tasks
        ⟨build_scoped_value (mId.getD [])
           (if pyStrip (task.description.getD []) = [] then str "No Description"
            else pyStrip (task.description.getD [])),
         task.deadline.getD (str "TBD"),
         normalize_task_status (task.status.getD (str "pending"))⟩ := by
    simp only [ingestTaskStep]
    repeat' split
    all_goals rfl
  rw [heq] at h
  rcases mem_keepByKey _ _ _ _ h with h2 | h2
  · exact Or.inl h2
  · subst h2
    exact Or.inr (normalize_mem_allowed _)

theorem ingestDecisionStep_tasks (mId : Option (List Char))
    (tks : List (List Char × List Char)) (st : Store) (d : AnalysisDecision) :
    (ingestDecisionStep mId tks st d).tasks = st.tasks := by
  simp only [ingestDecisionStep]
  repeat' split
  all_goals rfl

theorem ingestEntityStep_tasks (mId : Option (List Char))
    (acc : Store × List (List Char × List Char)) (ent : AnalysisEntity) :
    (ingestEntityStep mId acc ent).1.tasks = acc.1.tasks := by
  simp only [ingestEntityStep]
  repeat' split
  all_goals rfl

theorem ingestRelationStep_tasks (ek : List (List Char × List Char)) (st : Store)
    (rel : AnalysisRelation) : (ingestRelationStep ek st rel).tasks = st.tasks := by
  simp only [ingestRelationStep]
  repeat' split
  all_goals rfl

theorem ingestMentionInner_tasks (tt sct : List Char) (st : Store)
    (ek : List Char × List Char) :
    (ingestMentionInner tt sct st ek).tasks = st.tasks := by
  simp only [ingestMentionInner]
  repeat' split
  all_goals rfl

theorem ingestMentionStep_tasks (tps : List AnalysisTopic)
    (eks : List (List Char × List Char)) (st : Store) (kv : List Char × List Char) :
    (ingestMentionStep tps eks st kv).tasks = st.tasks := by
  simp only [ingestMentionStep]
  split
  · rfl
  · rename_i td htd
    exact foldl_preserve (ingestMentionInner (kv.1 ++ ' ' :: td.summary.getD []) kv.2)
      (fun x => x.tasks = st.tasks)
      (fun s b hs => by
        show (ingestMentionInner _ _ s b).tasks = st.tasks
        rw [ingestMentionInner_tasks]
        exact hs) eks st rfl

theorem restore_tasks_eq (dim : Nat) (st : Store) (dump : GraphDump) :
    (restore_graph_dump dim st dump).1.tasks =
      restoreKeyedWith (fun (x : TaskNode) => x.description)
        (fun (x : TaskNode) => x.description)
        (fun t => ⟨t.description, t.deadline, normalize_task_status t.status⟩)
        st.tasks dump.tasks := rfl

theorem ingestPeople_tasks (s : Store) (ppl : List AnalysisPerson) :
    (ingestPeople s ppl).tasks = s.tasks :=
  foldl_preserve ingestPersonStep (fun x => x.tasks = s.tasks)
    (fun a b ha => by dsimp only; rw [ingestPersonStep_tasks]; exact ha) ppl s rfl

theorem ingestTopics_tasks (mId : Option (List Char)) (s : Store)
    (ts : List AnalysisTopic) : (ingestTopics mId s ts).1.tasks = s.tasks :=
  foldl_preserve (ingestTopicStep mId) (fun a => a.1.tasks = s.tasks)
    (fun a b ha => by dsimp only; rw [ingestTopicStep_tasks]; exact ha) ts (s, []) rfl

theorem ingestDecisions_tasks (mId : Option (List Char))
    (tks : List (List Char × List Char)) (s : Store) (ds : List AnalysisDecision) :
    (ingestDecisions mId tks s ds).tasks = s.tasks :=
  foldl_preserve (ingestDecisionStep mId tks) (fun x => x.tasks = s.tasks)
    (fun a b ha => by dsimp only; rw [ingestDecisionStep_tasks]; exact ha) ds s rfl

theorem ingestEntities_tasks (mId : Option (List Char)) (s : Store)
    (es : List AnalysisEntity) : (ingestEntities mId s es).1.tasks = s.tasks :=
  foldl_preserve (ingestEntityStep mId) (fun a => a.1.tasks = s.tasks)
    (fun a b ha => by dsimp only; rw [ingestEntityStep_tasks]; exact ha) es (s, []) rfl

theorem ingestRelations_tasks (eks : List (List Char × List Char)) (s : Store)
    (rels : List AnalysisRelation) : (ingestRelations eks s rels).tasks = s.tasks :=
  foldl_preserve (ingestRelationStep eks) (fun x => x.tasks = s.tasks)
    (fun a b ha => by dsimp only; rw [ingestRelationStep_tasks]; exact ha) rels s rfl

theorem ingestMentions_tasks (tps : List AnalysisTopic)
    (tks eks : List (List Char × List Char)) (s : Store) :
    (ingestMentions tps tks eks s).tasks = s.tasks :=
  foldl_preserve (ingestMentionStep tps eks) (fun x => x.tasks = s.tasks)
    (fun a b ha => by dsimp only; rw [ingestMentionStep_tasks]; exact ha) tks s rfl

theorem ingestTasks_tasks_mem (mId : Option (List Char)) (s : Store)
    (ts : List AnalysisTask) :
    ∀ y ∈ (ingestTasks mId s ts).tasks,
      y ∈ s.tasks ∨ y.status ∈ ALLOWED_TASK_STATUSES :=
  foldl_preserve (ingestTaskStep mId)
    (fun x => ∀ y ∈ x.tasks, y ∈ s.tasks ∨ y.status ∈ ALLOWED_TASK_STATUSES)
    (fun a b ha y hy => by
      rcases ingestTaskStep_tasks_mem mId a b y hy with h | h
      · exact ha y h
      · exact Or.inr h) ts s (fun y hy => Or.inl hy)

theorem get_all_tasks_status (s : Store) (lim : Nat) (kw : List Char) :
    ∀ r ∈ get_all_tasks s lim kw, r.status ∈ ALLOWED_TASK_STATUSES := by
  intro r hr
  unfold get_all_tasks at hr
  obtain ⟨p, hp, rfl⟩ := List.mem_map.mp hr
  exact normalize_mem_allowed _

theorem get_person_tasks_status (s : Store) (n : List Char) (lim : Nat) :
    ∀ r ∈ get_person_tasks s n lim, r.status ∈ ALLOWED_TASK_STATUSES := by
  intro r hr
  unfold get_person_tasks at hr
  obtain ⟨p, hp, rfl⟩ := List.mem_map.mp hr
  exact normalize_mem_allowed _

theorem summary_tasks_status (s : Store) (mid : List Char) (ms : MeetingSummary)
    (h : get_meeting_summary s mid = some ms) :
    ∀ t ∈ ms.tasks, t.status ∈ ALLOWED_TASK_STATUSES := by
  unfold get_meeting_summary at h
  split at h
  · simp at h
  · simp only [Option.some.injEq] at h
    subst h
    intro t ht
    obtain ⟨r, hr, rfl⟩ := List.mem_map.mp ht
    exact normalize_mem_allowed _

/-- C10: the task-status normalization invariant — `normalize_task_status`
always lands in the canonical set; the documented aliases map to their
canonical forms after trimming and lowercasing; any other unrecognized or
empty input maps to `"pending"`; every Task status written by
`ingest_data` or `restore_graph_dump` is canonical (pre-existing rows
aside); and every status field returned by `get_all_tasks`,
`get_person_tasks` or `get_meeting_summary` is canonical. -/
theorem task_status_invariant (raw : List Char) :
    normalize_task_status raw ∈ ALLOWED_TASK_STATUSES ∧
    (∀ s2, pyLower (pyStrip s2) = str "todo" ∨ pyLower (pyStrip s2) = str "to do" →
      normalize_task_status s2 = str "pending") ∧
    (∀ s2, pyLower (pyStrip s2) = str "in progress" →
      normalize_task_status s2 = str "in_progress") ∧
    (∀ s2, pyLower (pyStrip s2) = str "complete" ∨
        pyLower (pyStrip s2) = str "completed" →
      normalize_task_status s2 = str "done") ∧
    (∀ s2, TASK_STATUS_ALIASES.find? (fun p => p.1 == pyLower (pyStrip s2)) = none →
      pyLower (pyStrip s2) ∉ ALLOWED_TASK_STATUSES →
      normalize_task_status s2 = str "pending") ∧
    (∀ (st : Store) (res : AnalysisResult) (mid : Option (List Char)),
      ∀ t ∈ (ingest_data st res mid).tasks,
        t.status ∈ ALLOWED_TASK_STATUSES ∨ t ∈ st.tasks) ∧
    (∀ (dim : Nat) (st : Store) (dump : GraphDump),
      ∀ t ∈ (restore_graph_dump dim st dump).1.tasks,
        t.status ∈ ALLOWED_TASK_STATUSES ∨ t ∈ st.tasks) ∧
    (∀ (st : Store) (lim : Nat) (kw : List Char),
      ∀ r ∈ get_all_tasks st lim kw, r.status ∈ ALLOWED_TASK_STATUSES) ∧
    (∀ (st : Store) (n : List Char) (lim : Nat),
      ∀ r ∈ get_person_tasks st n lim, r.status ∈ ALLOWED_TASK_STATUSES) ∧
    (∀ (st : Store) (mid : List Char) (ms : MeetingSummary),
      get_meeting_summary st mid = some ms →
      ∀ t ∈ ms.tasks, t.status ∈ ALLOWED_TASK_STATUSES) := by
  refine ⟨normalize_mem_allowed raw, ?_, ?_, ?_, ?_, ?_, ?_,
    get_all_tasks_status, get_person_tasks_status, summary_tasks_status⟩
  · intro s2 h
    rcases h with h | h <;> · simp only [normalize_task_status, h]; decide
  · intro s2 h
    simp only [normalize_task_status, h]
    decide
  · intro s2 h
    rcases h with h | h <;> · simp only [normalize_task_status, h]; decide
  · intro s2 h1 h2
    simp only [normalize_task_status, lookupAlias, h1]
    rw [if_neg h2]
  · intro st res mid t ht
    unfold ingest_data at ht
    rw [ingestMentions_tasks, ingestRelations_tasks, ingestEntities_tasks,
      ingestDecisions_tasks] at ht
    rcases ingestTasks_tasks_mem mid _ res.tasks t ht with h | h
    · rw [ingestTopics_tasks, ingestPeople_tasks] at h
      exact Or.inr h
    · exact Or.inl h
  · intro dim st dump t ht
    rw [restore_tasks_eq] at ht
    rcases mem_restoreKeyedWith _ _ _ dump.tasks st.tasks t ht with h | ⟨x, hx, rfl⟩
    · exact Or.inr h
    · exact Or.inl (normalize_mem_allowed _)

/-- C10 witness: alias and default behaviour at concrete inputs. -/
theorem task_status_invariant_witness :
    normalize_task_status (str " TODO ") = str "pending" ∧
    normalize_task_status (str "Completed") = str "done" ∧
    normalize_task_status (str "weird") = str "pending" := by
  have h := task_status_invariant (str "x")
  exact ⟨h.2.1 (str " TODO ") (Or.inl (by decide)),
         h.2.2.2.1 (str "Completed") (Or.inr (by decide)),
         h.2.2.2.2.1 (str "weird") (by decide) (by decide)⟩

theorem hasKey_exists {α : Type} (key : α → List Char) (l : List α) (v : List Char)
    (h : hasKey key l v = true) : ∃ x ∈ l, key x = v := by
  unfold hasKey at h
  obtain ⟨x, hx, hk⟩ := List.any_eq_true.mp h
  exact ⟨x, hx, by simpa using hk⟩

theorem hasKey_of_mem {α : Type} (key : α → List Char) (l : List α) (x : α)
    (hx : x ∈ l) : hasKey key l (key x) = true := by
  unfold hasKey
  exact List.any_eq_true.mpr ⟨x, hx, by simp⟩

theorem addIfAbsent_append {α : Type} [DecidableEq α] (l : List α) (x : α)
    (h : x ∉ l) : addIfAbsent l x = l ++ [x] := by
  unfold addIfAbsent
  rw [if_neg h]

theorem upsertByKey_append {α : Type} (key : α → List Char) (l : List α) (x : α)
    (h : ∀ y ∈ l, key y ≠ key x) : upsertByKey key l x = l ++ [x] := by
  unfold upsertByKey
  rw [if_neg ?_]
  simp only [List.any_eq_true, not_exists]
  intro y
  rw [not_and]
  intro hy
  simpa using h y hy

theorem restoreKeyedWith_append {α β : Type} (key : α → List Char)
    (keyOf : β → List Char) (tr : β → α) (hK : ∀ x, key (tr x) = keyOf x) :
    ∀ (items : List β) (acc : List α),
    (items.map keyOf).Nodup → (∀ x ∈ items, keyOf x ≠ []) →
    (∀ x ∈ items, ∀ y ∈ acc, key y ≠ keyOf x) →
    restoreKeyedWith key keyOf tr acc items = acc ++ items.map tr := by
  intro items
  induction items with
  | nil =>
    intro acc _ _ _
    simp [restoreKeyedWith]
  | cons x rest ih =>
    intro acc hnd hne hdis
    simp only [restoreKeyedWith, List.foldl_cons]
    rw [if_neg (hne x (List.mem_cons_self _ _))]
    rw [upsertByKey_append key acc (tr x)
      (fun y hy => by rw [hK x]; exact hdis x (List.mem_cons_self _ _) y hy)]
    have hnd2 : (rest.map keyOf).Nodup := (List.nodup_cons.mp (by simpa using hnd)).2
    have hhead : keyOf x ∉ rest.map keyOf := (List.nodup_cons.mp (by simpa using hnd)).1
    have ih2 := ih (acc ++ [tr x]) hnd2
      (fun z hz => hne z (List.mem_cons_of_mem _ hz))
      (fun z hz y hy => by
        rcases List.mem_append.mp hy with hy2 | hy2
        · exact hdis z (List.mem_cons_of_mem _ hz) y hy2
        · rw [List.mem_singleton.mp hy2, hK x]
          intro hcon
          exact hhead (hcon ▸ List.mem_map_of_mem keyOf hz))
    simp only [restoreKeyedWith] at ih2
    rw [ih2]
    simp

theorem restorePlainEdges_append (srcOk tgtOk : List Char → Bool) :
    ∀ (items : List (List Char × List Char)) (acc : List (List Char × List Char)),
    items.Nodup →
    (∀ e ∈ items, e.1 ≠ [] ∧ e.2 ≠ [] ∧ srcOk e.1 = true ∧ tgtOk e.2 = true) →
    (∀ e ∈ items, e ∉ acc) →
    restorePlainEdges srcOk tgtOk acc items = acc ++ items := by
  intro items
  induction items with
  | nil =>
    intro acc _ _ _
    simp [restorePlainEdges]
  | cons e rest ih =>
    intro acc hnd hok hdis
    obtain ⟨h1, h2, h3, h4⟩ := hok e (List.mem_cons_self _ _)
    simp only [restorePlainEdges, List.foldl_cons]
    rw [if_neg (by simp [h1, h2]), if_pos (by simp [h3, h4]),
      addIfAbsent_append acc e (hdis e (List.mem_cons_self _ _))]
    have ih2 := ih (acc ++ [e]) (List.nodup_cons.mp hnd).2
      (fun z hz => hok z (List.mem_cons_of_mem _ hz))
      (fun z hz => by
        intro hcon
        rcases List.mem_append.mp hcon with hc | hc
        · exact hdis z (List.mem_cons_of_mem _ hz) hc
        · exact (List.nodup_cons.mp hnd).1 (List.mem_singleton.mp hc ▸ hz))
    simp only [restorePlainEdges] at ih2
    rw [ih2]
    simp

theorem restoreRelatedEdges_append (entOk : List Char → Bool) :
    ∀ (items : List (List Char × List Char × List Char))
      (acc : List (List Char × List Char × List Char)),
    items.Nodup →
    (∀ e ∈ items, e.1 ≠ [] ∧ e.2.2 ≠ [] ∧ entOk e.1 = true ∧ entOk e.2.2 = true) →
    (∀ e ∈ items, e ∉ acc) →
    restoreRelatedEdges entOk acc items = acc ++ items := by
  intro items
  induction items with
  | nil =>
    intro acc _ _ _
    simp [restoreRelatedEdges]
  | cons e rest ih =>
    intro acc hnd hok hdis
    obtain ⟨h1, h2, h3, h4⟩ := hok e (List.mem_cons_self _ _)
    simp only [restoreRelatedEdges, List.foldl_cons]
    rw [if_neg (by simp [h1, h2]), if_pos (by simp [h3, h4]),
      addIfAbsent_append acc e (hdis e (List.mem_cons_self _ _))]
    have ih2 := ih (acc ++ [e]) (List.nodup_cons.mp hnd).2
      (fun z hz => hok z (List.mem_cons_of_mem _ hz))
      (fun z hz => by
        intro hcon
        rcases List.mem_append.mp hcon with hc | hc
        · exact hdis z (List.mem_cons_of_mem _ hz) hc
        · exact (List.nodup_cons.mp hnd).1 (List.mem_singleton.mp hc ▸ hz))
    simp only [restoreRelatedEdges] at ih2
    rw [ih2]
    simp

theorem restoreUtterances_append (dim : Nat) :
    ∀ (items : List UttDump) (acc : List UttNode) (w : Bool),
    (items.map (fun u => u.id)).Nodup → (∀ u ∈ items, u.id ≠ []) →
    (∀ u ∈ items, ∀ y ∈ acc, y.id ≠ u.id) →
    items.foldl
      (fun acc u =>
        if u.id = [] then acc
        else (upsertByKey (fun x => x.id) acc.1 (uttFromDump dim u),
              acc.2 || uttMissing u)) (acc, w) =
      (acc ++ items.map (uttFromDump dim), w || items.any uttMissing) := by
  intro items
  induction items with
  | nil =>
    intro acc w _ _ _
    simp
  | cons u rest ih =>
    intro acc w hnd hne hdis
    simp only [List.foldl_cons]
    rw [if_neg (hne u (List.mem_cons_self _ _))]
    have hup : upsertByKey (fun (x : UttNode) => x.id) acc (uttFromDump dim u)
        = acc ++ [uttFromDump dim u] :=
      upsertByKey_append _ acc _
        (fun y hy => by
          show y.id ≠ (uttFromDump dim u).id
          exact hdis u (List.mem_cons_self _ _) y hy)
    rw [hup]
    have hnd2 : (rest.map (fun u => u.id)).Nodup := (List.nodup_cons.mp (by simpa using hnd)).2
    have hhead : u.id ∉ rest.map (fun u => u.id) := (List.nodup_cons.mp (by simpa using hnd)).1
    have ih2 := ih (acc ++ [uttFromDump dim u]) (w || uttMissing u) hnd2
      (fun z hz => hne z (List.mem_cons_of_mem _ hz))
      (fun z hz y hy => by
        rcases List.mem_append.mp hy with hy2 | hy2
        · exact hdis z (List.mem_cons_of_mem _ hz) y hy2
        · rw [List.mem_singleton.mp hy2]
          show (uttFromDump dim u).id ≠ z.id
          intro hcon
          exact hhead (by
            have : u.id = z.id := hcon
            exact this ▸ List.mem_map_of_mem (fun u => u.id) hz))
    rw [ih2]
    simp [Bool.or_assoc]

theorem keepByKey_append {α : Type} (key : α → List Char) (l : List α) (x : α)
    (h : ∀ y ∈ l, key y ≠ key x) : keepByKey key l x = l ++ [x] := by
  unfold keepByKey
  rw [if_neg ?_]
  simp only [List.any_eq_true, not_exists]
  intro y
  rw [not_and]
  intro hy
  simpa using h y hy

theorem restoreEntities_append :
    ∀ (items : List EntityNode) (acc : List EntityNode),
    (items.map (fun e => e.name)).Nodup → (∀ e ∈ items, e.name ≠ []) →
    (∀ e ∈ items, ∀ y ∈ acc, y.name ≠ e.name) →
    restoreEntities acc items = acc ++ items := by
  intro items
  induction items with
  | nil =>
    intro acc _ _ _
    simp [restoreEntities]
  | cons e rest ih =>
    intro acc hnd hne hdis
    simp only [restoreEntities, List.foldl_cons]
    rw [if_neg (hne e (List.mem_cons_self _ _))]
    rw [keepByKey_append _ acc e (fun y hy =>
      hdis e (List.mem_cons_self _ _) y hy)]
    have hnd2 : (rest.map (fun e => e.name)).Nodup :=
      (List.nodup_cons.mp (by simpa using hnd)).2
    have hhead : e.name ∉ rest.map (fun e => e.name) :=
      (List.nodup_cons.mp (by simpa using hnd)).1
    have ih2 := ih (acc ++ [e]) hnd2
      (fun z hz => hne z (List.mem_cons_of_mem _ hz))
      (fun z hz y hy => by
        rcases List.mem_append.mp hy with hy2 | hy2
        · exact hdis z (List.mem_cons_of_mem _ hz) y hy2
        · rw [List.mem_singleton.mp hy2]
          intro hcon
          exact hhead (hcon ▸ List.mem_map_of_mem (fun e => e.name) hz))
    simp only [restoreEntities] at ih2
    rw [ih2]
    simp

theorem normalize_canonical (st : List Char) (h : st ∈ ALLOWED_TASK_STATUSES) :
    normalize_task_status st = st := by
  fin_cases h <;> decide

theorem key_ne_nil_of_hasKey {α : Type} (key : α → List Char) (l : List α)
    (v : List Char) (hk : hasKey key l v = true) (hne : ∀ x ∈ l, key x ≠ []) :
    v ≠ [] := by
  obtain ⟨x, hx, hxv⟩ := hasKey_exists key l v hk
  rw [← hxv]
  exact hne x hx

theorem hasKey_map {α β : Type} (key : α → List Char) (key2 : β → List Char)
    (f : β → α) (hf : ∀ x, key (f x) = key2 x) (l : List β) (v : List Char) :
    hasKey key (l.map f) v = hasKey key2 l v := by
  unfold hasKey
  induction l with
  | nil => rfl
  | cons a rest ih => simp [hf a, ih]

theorem any_of_all_true {α : Type} (p : α → Bool) (l : List α)
    (h : ∀ x ∈ l, p x = true) : l.any p = !l.isEmpty := by
  cases l with
  | nil => rfl
  | cons a rest =>
    simp [h a (List.mem_cons_self _ _)]

theorem find?_id_map (f : UttNode → UttNode) (hf : ∀ u, (f u).id = u.id)
    (l : List UttNode) (v : List Char) :
    ((l.map f).find? (fun u => u.id == v)).isSome
      = (l.find? (fun u => u.id == v)).isSome := by
  rw [List.find?_map]
  rw [show ((fun (u : UttNode) => u.id == v) ∘ f) = (fun u => u.id == v) from
    funext (fun x => by simp [hf x])]
  simp

theorem storeExt (a b : Store)
    (h1 : a.meetings = b.meetings) (h2 : a.people = b.people)
    (h3 : a.topics = b.topics) (h4 : a.tasks = b.tasks)
    (h5 : a.decisions = b.decisions) (h6 : a.utterances = b.utterances)
    (h7 : a.entities = b.entities) (h8 : a.proposed = b.proposed)
    (h9 : a.assigned_to = b.assigned_to) (h10 : a.resulted_in = b.resulted_in)
    (h11 : a.spoke = b.spoke) (h12 : a.next = b.next)
    (h13 : a.discussed = b.discussed) (h14 : a.contains = b.contains)
    (h15 : a.has_task = b.has_task) (h16 : a.has_decision = b.has_decision)
    (h17 : a.related_to = b.related_to) (h18 : a.mentions = b.mentions)
    (h19 : a.has_entity = b.has_entity) : a = b := by
  cases a
  cases b
  simp_all

theorem rkw_id_nil {α : Type} (key : α → List Char) (l : List α)
    (hnd : (l.map key).Nodup) (hne : ∀ x ∈ l, key x ≠ []) :
    restoreKeyedWith key key id ([] : List α) l = l := by
  rw [restoreKeyedWith_append key key id (fun x => rfl) l [] hnd hne (by simp)]
  simp

theorem restoreEntities_nil (l : List EntityNode)
    (hnd : (l.map (fun e => e.name)).Nodup) (hne : ∀ e ∈ l, e.name ≠ []) :
    restoreEntities ([] : List EntityNode) l = l := by
  rw [restoreEntities_append l [] hnd hne (by simp)]
  simp

theorem rkw_tasks_nil (l : List TaskNode)
    (hnd : (l.map (fun t => t.description)).Nodup)
    (hne : ∀ t ∈ l, t.description ≠ [])
    (hst : ∀ t ∈ l, t.status ∈ ALLOWED_TASK_STATUSES) :
    restoreKeyedWith (fun (x : TaskNode) => x.description)
      (fun (x : TaskNode) => x.description)
      (fun t => ⟨t.description, t.deadline, normalize_task_status t.status⟩)
      ([] : List TaskNode) l = l := by
  rw [restoreKeyedWith_append (fun (x : TaskNode) => x.description)
    (fun (x : TaskNode) => x.description)
    (fun t => ⟨t.description, t.deadline, normalize_task_status t.status⟩)
    (fun x => rfl) l [] hnd hne (by simp)]
  rw [List.nil_append]
  rw [show l.map (fun t =>
      (⟨t.description, t.deadline, normalize_task_status t.status⟩ : TaskNode)) = l.map id
    from List.map_congr_left (fun t ht => by
      rw [normalize_canonical t.status (hst t ht)]
      rfl)]
  simp

theorem plainEdges_nil (srcOk tgtOk : List Char → Bool)
    (items : List (List Char × List Char)) (hnd : items.Nodup)
    (hok : ∀ e ∈ items, e.1 ≠ [] ∧ e.2 ≠ [] ∧ srcOk e.1 = true ∧ tgtOk e.2 = true) :
    restorePlainEdges srcOk tgtOk [] items = items := by
  rw [restorePlainEdges_append srcOk tgtOk items [] hnd hok (by simp)]
  simp

theorem relatedEdges_nil (entOk : List Char → Bool)
    (items : List (List Char × List Char × List Char)) (hnd : items.Nodup)
    (hok : ∀ e ∈ items, e.1 ≠ [] ∧ e.2.2 ≠ [] ∧ entOk e.1 = true ∧ entOk e.2.2 = true) :
    restoreRelatedEdges entOk [] items = items := by
  rw [restoreRelatedEdges_append entOk items [] hnd hok (by simp)]
  simp

theorem restoreUtterances_nil (dim : Nat) (items : List UttDump)
    (hnd : (items.map (fun u => u.id)).Nodup) (hne : ∀ u ∈ items, u.id ≠ []) :
    restoreUtterances dim ([] : List UttNode) items =
      (items.map (uttFromDump dim), items.any uttMissing) := by
  unfold restoreUtterances
  rw [restoreUtterances_append dim items [] false hnd hne (by simp)]
  simp

/-- Characterization of restoring an exported dump into an empty store:
for a well-formed store the restored store equals the original, except
that every utterance embedding is either kept (`include_embeddings =
true`) or replaced by a zero vector of the configured dimensionality,
and the warning flag is set exactly when embeddings were omitted and at
least one utterance exists. -/
theorem restore_of_export (s : Store) (dim : Nat) (inc : Bool) (hwf : StoreWF s) :
    restore_graph_dump dim emptyStore (export_graph_dump s inc) =
      ({ s with utterances := s.utterances.map (fun u => (⟨u.id, u.text, u.startTime, u.endTime,
        if inc then u.embedding else List.replicate dim 0⟩ : UttNode)) },
       if inc then false else !s.utterances.isEmpty) := by
  have hM : restoreKeyedWith (fun (x : MeetingNode) => x.id)
      (fun (x : MeetingNode) => x.id) id ([] : List MeetingNode) s.meetings
      = s.meetings :=
    rkw_id_nil _ s.meetings hwf.meetings_nodup hwf.meetings_key
  have hP : restoreKeyedWith (fun (x : PersonNode) => x.name)
      (fun (x : PersonNode) => x.name) id ([] : List PersonNode) s.people
      = s.people :=
    rkw_id_nil _ s.people hwf.people_nodup hwf.people_key
  have hT : restoreKeyedWith (fun (x : TopicNode) => x.title)
      (fun (x : TopicNode) => x.title) id ([] : List TopicNode) s.topics
      = s.topics :=
    rkw_id_nil _ s.topics hwf.topics_nodup hwf.topics_key
  have hD : restoreKeyedWith (fun (x : DecisionNode) => x.description)
      (fun (x : DecisionNode) => x.description) id ([] : List DecisionNode) s.decisions
      = s.decisions :=
    rkw_id_nil _ s.decisions hwf.decisions_nodup hwf.decisions_key
  have hTk : restoreKeyedWith (fun (x : TaskNode) => x.description)
      (fun (x : TaskNode) => x.description)
      (fun t => ⟨t.description, t.deadline, normalize_task_status t.status⟩)
      ([] : List TaskNode) s.tasks = s.tasks :=
    rkw_tasks_nil s.tasks hwf.tasks_nodup hwf.tasks_key hwf.tasks_status
  have hE : restoreEntities ([] : List EntityNode) s.entities = s.entities :=
    restoreEntities_nil s.entities hwf.entities_nodup hwf.entities_key
  have hUnd : ((s.utterances.map (fun u => (⟨u.id, u.text, u.startTime, u.endTime,
        if inc then some u.embedding else none⟩ : UttDump))).map (fun u => u.id)).Nodup := by
    rw [List.map_map]
    exact hwf.utterances_nodup
  have hUne : ∀ u ∈ s.utterances.map (fun u => (⟨u.id, u.text, u.startTime, u.endTime,
        if inc then some u.embedding else none⟩ : UttDump)), u.id ≠ [] := by
    intro u hu
    obtain ⟨x, hx, rfl⟩ := List.mem_map.mp hu
    exact hwf.utterances_key x hx
  have hU := restoreUtterances_nil dim (s.utterances.map (fun u => (⟨u.id, u.text, u.startTime, u.endTime,
        if inc then some u.embedding else none⟩ : UttDump))) hUnd hUne
  have hUmap : (s.utterances.map (fun u => (⟨u.id, u.text, u.startTime, u.endTime,
        if inc then some u.embedding else none⟩ : UttDump))).map (uttFromDump dim)
      = s.utterances.map (fun u => (⟨u.id, u.text, u.startTime, u.endTime,
        if inc then u.embedding else List.replicate dim 0⟩ : UttNode)) := by
    rw [List.map_map]
    apply List.map_congr_left
    intro u hu
    have hemb := hwf.utterances_emb u hu
    cases inc with
    | false => simp [uttFromDump, uttMissing]
    | true =>
      obtain ⟨a, t, hat⟩ : ∃ a t, u.embedding = a :: t := by
        cases h : u.embedding with
        | nil => exact absurd h hemb
        | cons a t => exact ⟨a, t, rfl⟩
      simp [uttFromDump, uttMissing, hat]
  have hany : (s.utterances.map (fun u => (⟨u.id, u.text, u.startTime, u.endTime,
        if inc then some u.embedding else none⟩ : UttDump))).any uttMissing
      = (if inc then false else !s.utterances.isEmpty) := by
    cases inc with
    | false =>
      rw [if_neg (by simp)]
      rw [any_of_all_true uttMissing _ ?_]
      · cases s.utterances <;> rfl
      · intro x hx
        obtain ⟨u, hu, rfl⟩ := List.mem_map.mp hx
        simp [uttMissing]
    | true =>
      rw [if_pos rfl]
      apply List.any_eq_false.mpr
      intro x hx
      obtain ⟨u, hu, rfl⟩ := List.mem_map.mp hx
      have hemb := hwf.utterances_emb u hu
      obtain ⟨a, t, hat⟩ : ∃ a t, u.embedding = a :: t := by
        cases h : u.embedding with
        | nil => exact absurd h hemb
        | cons a t => exact ⟨a, t, rfl⟩
      simp [uttMissing, hat]
  have h1 : (restore_graph_dump dim emptyStore (export_graph_dump s inc)).1.meetings
      = s.meetings := hM
  have h2 : (restore_graph_dump dim emptyStore (export_graph_dump s inc)).1.people
      = s.people := hP
  have h3 : (restore_graph_dump dim emptyStore (export_graph_dump s inc)).1.topics
      = s.topics := hT
  have h4 : (restore_graph_dump dim emptyStore (export_graph_dump s inc)).1.tasks
      = s.tasks := hTk
  have h5 : (restore_graph_dump dim emptyStore (export_graph_dump s inc)).1.decisions
      = s.decisions := hD
  have h6 : (restore_graph_dump dim emptyStore (export_graph_dump s inc)).1.utterances
      = s.utterances.map (fun u => (⟨u.id, u.text, u.startTime, u.endTime,
        if inc then u.embedding else List.replicate dim 0⟩ : UttNode)) := by
    show (restoreUtterances dim ([] : List UttNode) (s.utterances.map (fun u => (⟨u.id, u.text, u.startTime, u.endTime,
        if inc then some u.embedding else none⟩ : UttDump)))).1
      = s.utterances.map (fun u => (⟨u.id, u.text, u.startTime, u.endTime,
        if inc then u.embedding else List.replicate dim 0⟩ : UttNode))
    rw [hU]
    exact hUmap
  have h7 : (restore_graph_dump dim emptyStore (export_graph_dump s inc)).1.entities
      = s.entities := hE
  have hw : (restore_graph_dump dim emptyStore (export_graph_dump s inc)).2
      = (if inc then false else !s.utterances.isEmpty) := by
    show (restoreUtterances dim ([] : List UttNode) (s.utterances.map (fun u => (⟨u.id, u.text, u.startTime, u.endTime,
        if inc then some u.embedding else none⟩ : UttDump)))).2
      = (if inc then false else !s.utterances.isEmpty)
    rw [hU]
    exact hany
  have hUKey : hasKey (fun (u : UttNode) => u.id)
      ((restoreUtterances dim ([] : List UttNode) (s.utterances.map (fun u => (⟨u.id, u.text, u.startTime, u.endTime,
        if inc then some u.embedding else none⟩ : UttDump)))).1)
      = hasKey (fun (u : UttNode) => u.id) s.utterances := by
    funext v
    rw [hU]
    show hasKey _ ((s.utterances.map (fun u => (⟨u.id, u.text, u.startTime, u.endTime,
        if inc then some u.embedding else none⟩ : UttDump))).map (uttFromDump dim)) v = _
    rw [hUmap]
    exact hasKey_map _ _ _ (fun x => rfl) s.utterances v
  have h8 : (restore_graph_dump dim emptyStore (export_graph_dump s inc)).1.proposed
      = s.proposed := by
    show restorePlainEdges
        (hasKey (fun (p : PersonNode) => p.name)
        (restoreKeyedWith (fun (x : PersonNode) => x.name)
          (fun (x : PersonNode) => x.name) id ([] : List PersonNode) s.people))
        (hasKey (fun (t : TopicNode) => t.title)
        (restoreKeyedWith (fun (x : TopicNode) => x.title)
          (fun (x : TopicNode) => x.title) id ([] : List TopicNode) s.topics))
        [] s.proposed = s.proposed
    rw [hP, hT]
    apply plainEdges_nil
    · exact hwf.proposed_nodup
    · intro e he
      obtain ⟨hsrc, htgt⟩ := hwf.proposed_ends e he
      exact ⟨key_ne_nil_of_hasKey _ _ _ hsrc hwf.people_key,
        key_ne_nil_of_hasKey _ _ _ htgt hwf.topics_key, hsrc, htgt⟩
  have h9 : (restore_graph_dump dim emptyStore (export_graph_dump s inc)).1.assigned_to
      = s.assigned_to := by
    show restorePlainEdges
        (hasKey (fun (p : PersonNode) => p.name)
        (restoreKeyedWith (fun (x : PersonNode) => x.name)
          (fun (x : PersonNode) => x.name) id ([] : List PersonNode) s.people))
        (hasKey (fun (t : TaskNode) => t.description)
        (restoreKeyedWith (fun (x : TaskNode) => x.description)
          (fun (x : TaskNode) => x.description)
          (fun t => ⟨t.description, t.deadline, normalize_task_status t.status⟩)
          ([] : List TaskNode) s.tasks))
        [] s.assigned_to = s.assigned_to
    rw [hP, hTk]
    apply plainEdges_nil
    · exact hwf.assigned_nodup
    · intro e he
      obtain ⟨hsrc, htgt⟩ := hwf.assigned_ends e he
      exact ⟨key_ne_nil_of_hasKey _ _ _ hsrc hwf.people_key,
        key_ne_nil_of_hasKey _ _ _ htgt hwf.tasks_key, hsrc, htgt⟩
  have h10 : (restore_graph_dump dim emptyStore (export_graph_dump s inc)).1.resulted_in
      = s.resulted_in := by
    show restorePlainEdges
        (hasKey (fun (t : TopicNode) => t.title)
        (restoreKeyedWith (fun (x : TopicNode) => x.title)
          (fun (x : TopicNode) => x.title) id ([] : List TopicNode) s.topics))
        (hasKey (fun (d : DecisionNode) => d.description)
        (restoreKeyedWith (fun (x : DecisionNode) => x.description)
          (fun (x : DecisionNode) => x.description) id ([] : List DecisionNode) s.decisions))
        [] s.resulted_in = s.resulted_in
    rw [hT, hD]
    apply plainEdges_nil
    · exact hwf.resulted_nodup
    · intro e he
      obtain ⟨hsrc, htgt⟩ := hwf.resulted_ends e he
      exact ⟨key_ne_nil_of_hasKey _ _ _ hsrc hwf.topics_key,
        key_ne_nil_of_hasKey _ _ _ htgt hwf.decisions_key, hsrc, htgt⟩
  have h11 : (restore_graph_dump dim emptyStore (export_graph_dump s inc)).1.spoke
      = s.spoke := by
    show restorePlainEdges
        (hasKey (fun (p : PersonNode) => p.name)
        (restoreKeyedWith (fun (x : PersonNode) => x.name)
          (fun (x : PersonNode) => x.name) id ([] : List PersonNode) s.people))
        (hasKey (fun (u : UttNode) => u.id)
        ((restoreUtterances dim ([] : List UttNode) (s.utterances.map
          (fun u => (⟨u.id, u.text, u.startTime, u.endTime,
        if inc then some u.embedding else none⟩ : UttDump)))).1))
        [] s.spoke = s.spoke
    rw [hUKey]
    rw [hP]
    apply plainEdges_nil
    · exact hwf.spoke_nodup
    · intro e he
      obtain ⟨hsrc, htgt⟩ := hwf.spoke_ends e he
      exact ⟨key_ne_nil_of_hasKey _ _ _ hsrc hwf.people_key,
        key_ne_nil_of_hasKey _ _ _ htgt hwf.utterances_key, hsrc, htgt⟩
  have h12 : (restore_graph_dump dim emptyStore (export_graph_dump s inc)).1.next
      = s.next := by
    show restorePlainEdges
        (hasKey (fun (u : UttNode) => u.id)
        ((restoreUtterances dim ([] : List UttNode) (s.utterances.map
          (fun u => (⟨u.id, u.text, u.startTime, u.endTime,
        if inc then some u.embedding else none⟩ : UttDump)))).1))
        (hasKey (fun (u : UttNode) => u.id)
        ((restoreUtterances dim ([] : List UttNode) (s.utterances.map
          (fun u => (⟨u.id, u.text, u.startTime, u.endTime,
        if inc then some u.embedding else none⟩ : UttDump)))).1))
        [] s.next = s.next
    rw [hUKey]
    apply plainEdges_nil
    · exact hwf.next_nodup
    · intro e he
      obtain ⟨hsrc, htgt⟩ := hwf.next_ends e he
      exact ⟨key_ne_nil_of_hasKey _ _ _ hsrc hwf.utterances_key,
        key_ne_nil_of_hasKey _ _ _ htgt hwf.utterances_key, hsrc, htgt⟩
  have h13 : (restore_graph_dump dim emptyStore (export_graph_dump s inc)).1.discussed
      = s.discussed := by
    show restorePlainEdges
        (hasKey (fun (m : MeetingNode) => m.id)
        (restoreKeyedWith (fun (x : MeetingNode) => x.id)
          (fun (x : MeetingNode) => x.id) id ([] : List MeetingNode) s.meetings))
        (hasKey (fun (t : TopicNode) => t.title)
        (restoreKeyedWith (fun (x : TopicNode) => x.title)
          (fun (x : TopicNode) => x.title) id ([] : List TopicNode) s.topics))
        [] s.discussed = s.discussed
    rw [hM, hT]
    apply plainEdges_nil
    · exact hwf.discussed_nodup
    · intro e he
      obtain ⟨hsrc, htgt⟩ := hwf.discussed_ends e he
      exact ⟨key_ne_nil_of_hasKey _ _ _ hsrc hwf.meetings_key,
        key_ne_nil_of_hasKey _ _ _ htgt hwf.topics_key, hsrc, htgt⟩
  have h14 : (restore_graph_dump dim emptyStore (export_graph_dump s inc)).1.contains
      = s.contains := by
    show restorePlainEdges
        (hasKey (fun (m : MeetingNode) => m.id)
        (restoreKeyedWith (fun (x : MeetingNode) => x.id)
          (fun (x : MeetingNode) => x.id) id ([] : List MeetingNode) s.meetings))
        (hasKey (fun (u : UttNode) => u.id)
        ((restoreUtterances dim ([] : List UttNode) (s.utterances.map
          (fun u => (⟨u.id, u.text, u.startTime, u.endTime,
        if inc then some u.embedding else none⟩ : UttDump)))).1))
        [] s.contains = s.contains
    rw [hUKey]
    rw [hM]
    apply plainEdges_nil
    · exact hwf.contains_nodup
    · intro e he
      obtain ⟨hsrc, htgt⟩ := hwf.contains_ends e he
      exact ⟨key_ne_nil_of_hasKey _ _ _ hsrc hwf.meetings_key,
        key_ne_nil_of_hasKey _ _ _ htgt hwf.utterances_key, hsrc, htgt⟩
  have h15 : (restore_graph_dump dim emptyStore (export_graph_dump s inc)).1.has_task
      = s.has_task := by
    show restorePlainEdges
        (hasKey (fun (m : MeetingNode) => m.id)
        (restoreKeyedWith (fun (x : MeetingNode) => x.id)
          (fun (x : MeetingNode) => x.id) id ([] : List MeetingNode) s.meetings))
        (hasKey (fun (t : TaskNode) => t.description)
        (restoreKeyedWith (fun (x : TaskNode) => x.description)
          (fun (x : TaskNode) => x.description)
          (fun t => ⟨t.description, t.deadline, normalize_task_status t.status⟩)
          ([] : List TaskNode) s.tasks))
        [] s.has_task = s.has_task
    rw [hM, hTk]
    apply plainEdges_nil
    · exact hwf.has_task_nodup
    · intro e he
      obtain ⟨hsrc, htgt⟩ := hwf.has_task_ends e he
      exact ⟨key_ne_nil_of_hasKey _ _ _ hsrc hwf.meetings_key,
        key_ne_nil_of_hasKey _ _ _ htgt hwf.tasks_key, hsrc, htgt⟩
  have h16 : (restore_graph_dump dim emptyStore (export_graph_dump s inc)).1.has_decision
      = s.has_decision := by
    show restorePlainEdges
        (hasKey (fun (m : MeetingNode) => m.id)
        (restoreKeyedWith (fun (x : MeetingNode) => x.id)
          (fun (x : MeetingNode) => x.id) id ([] : List MeetingNode) s.meetings))
        (hasKey (fun (d : DecisionNode) => d.description)
        (restoreKeyedWith (fun (x : DecisionNode) => x.description)
          (fun (x : DecisionNode) => x.description) id ([] : List DecisionNode) s.decisions))
        [] s.has_decision = s.has_decision
    rw [hM, hD]
    apply plainEdges_nil
    · exact hwf.has_decision_nodup
    · intro e he
      obtain ⟨hsrc, htgt⟩ := hwf.has_decision_ends e he
      exact ⟨key_ne_nil_of_hasKey _ _ _ hsrc hwf.meetings_key,
        key_ne_nil_of_hasKey _ _ _ htgt hwf.decisions_key, hsrc, htgt⟩
  have h18 : (restore_graph_dump dim emptyStore (export_graph_dump s inc)).1.mentions
      = s.mentions := by
    show restorePlainEdges
        (hasKey (fun (t : TopicNode) => t.title)
        (restoreKeyedWith (fun (x : TopicNode) => x.title)
          (fun (x : TopicNode) => x.title) id ([] : List TopicNode) s.topics))
        (hasKey (fun (e : EntityNode) => e.name)
        (restoreEntities ([] : List EntityNode) s.entities))
        [] s.mentions = s.mentions
    rw [hT, hE]
    apply plainEdges_nil
    · exact hwf.mentions_nodup
    · intro e he
      obtain ⟨hsrc, htgt⟩ := hwf.mentions_ends e he
      exact ⟨key_ne_nil_of_hasKey _ _ _ hsrc hwf.topics_key,
        key_ne_nil_of_hasKey _ _ _ htgt hwf.entities_key, hsrc, htgt⟩
  have h19 : (restore_graph_dump dim emptyStore (export_graph_dump s inc)).1.has_entity
      = s.has_entity := by
    show restorePlainEdges
        (hasKey (fun (m : MeetingNode) => m.id)
        (restoreKeyedWith (fun (x : MeetingNode) => x.id)
          (fun (x : MeetingNode) => x.id) id ([] : List MeetingNode) s.meetings))
        (hasKey (fun (e : EntityNode) => e.name)
        (restoreEntities ([] : List EntityNode) s.entities))
        [] s.has_entity = s.has_entity
    rw [hM, hE]
    apply plainEdges_nil
    · exact hwf.has_entity_nodup
    · intro e he
      obtain ⟨hsrc, htgt⟩ := hwf.has_entity_ends e he
      exact ⟨key_ne_nil_of_hasKey _ _ _ hsrc hwf.meetings_key,
        key_ne_nil_of_hasKey _ _ _ htgt hwf.entities_key, hsrc, htgt⟩
  have h17 : (restore_graph_dump dim emptyStore (export_graph_dump s inc)).1.related_to
      = s.related_to := by
    show restoreRelatedEdges
        (hasKey (fun (e : EntityNode) => e.name)
        (restoreEntities ([] : List EntityNode) s.entities))
        [] s.related_to = s.related_to
    rw [hE]
    apply relatedEdges_nil
    · exact hwf.related_nodup
    · intro e he
      obtain ⟨hsrc, htgt⟩ := hwf.related_ends e he
      exact ⟨key_ne_nil_of_hasKey _ _ _ hsrc hwf.entities_key,
        key_ne_nil_of_hasKey _ _ _ htgt hwf.entities_key, hsrc, htgt⟩
  have hpair : restore_graph_dump dim emptyStore (export_graph_dump s inc) =
      ((restore_graph_dump dim emptyStore (export_graph_dump s inc)).1,
       (restore_graph_dump dim emptyStore (export_graph_dump s inc)).2) := rfl
  rw [hpair, Prod.mk.injEq]
  exact ⟨storeExt _ _ h1 h2 h3 h4 h5 h6 h7 h8 h9 h10 h11 h12 h13 h14 h15 h16 h17 h18 h19, hw⟩

theorem summaryPeopleRows_map_utts (s : Store) (f : UttNode → UttNode)
    (hf : ∀ u, (f u).id = u.id) (mid : List Char) :
    summaryPeopleRows { s with utterances := s.utterances.map f } mid
      = summaryPeopleRows s mid := by
  unfold summaryPeopleRows
  simp only [find?_id_map f hf]

theorem summaryTaskRows_map_utts (s : Store) (f : UttNode → UttNode)
    (hf : ∀ u, (f u).id = u.id) (mid : List Char) :
    summaryTaskRows { s with utterances := s.utterances.map f } mid
      = summaryTaskRows s mid := by
  unfold summaryTaskRows
  simp only [find?_id_map f hf]

theorem get_meeting_summary_map_utts (s : Store) (f : UttNode → UttNode)
    (hf : ∀ u, (f u).id = u.id) (mid : List Char) :
    get_meeting_summary { s with utterances := s.utterances.map f } mid
      = get_meeting_summary s mid := by
  unfold get_meeting_summary
  rw [show ({ s with utterances := s.utterances.map f } : Store).meetings
    = s.meetings from rfl]
  cases hm : s.meetings.find? (fun (m : MeetingNode) => m.id == mid) with
  | none => rfl
  | some m =>
    rw [summaryPeopleRows_map_utts s f hf mid, summaryTaskRows_map_utts s f hf mid]
    rfl

/-- C5: export/restore round trip on a well-formed store.  Restoring an
export into an empty store preserves the meeting-summary view (title,
date, topics, tasks, decisions, people) for every meeting id; when the
dump omits embeddings (`include_embeddings = false`) every restored
utterance carries a zero vector of the configured dimensionality and
restore succeeds, raising only the non-fatal warning flag (set exactly
when some utterance exists); when embeddings are included the round trip
is the identity and no warning is raised.  The well-formedness
hypothesis restricts the state space to what the schema and the write
paths maintain: unique non-empty primary keys, edges whose endpoints
exist, canonical task statuses and non-empty stored embeddings. -/
theorem export_restore_roundtrip (s : Store) (dim : Nat) (inc : Bool)
    (hwf : StoreWF s) :
    (∀ mid, get_meeting_summary
        (restore_graph_dump dim emptyStore (export_graph_dump s inc)).1 mid
      = get_meeting_summary s mid) ∧
    (inc = false →
      (∀ u ∈ (restore_graph_dump dim emptyStore (export_graph_dump s inc)).1.utterances,
        u.embedding = List.replicate dim 0) ∧
      (restore_graph_dump dim emptyStore (export_graph_dump s inc)).2
        = !s.utterances.isEmpty) ∧
    (inc = true →
      restore_graph_dump dim emptyStore (export_graph_dump s inc) = (s, false)) := by
  have hro := restore_of_export s dim inc hwf
  have h1 : (restore_graph_dump dim emptyStore (export_graph_dump s inc)).1
      = { s with utterances := s.utterances.map (fun u =>
          (⟨u.id, u.text, u.startTime, u.endTime,
            if inc then u.embedding else List.replicate dim 0⟩ : UttNode)) } := by
    rw [hro]
  have h2 : (restore_graph_dump dim emptyStore (export_graph_dump s inc)).2
      = (if inc then false else !s.utterances.isEmpty) := by
    rw [hro]
  refine ⟨?_, ?_, ?_⟩
  · intro mid
    rw [h1]
    exact get_meeting_summary_map_utts s
      (fun u => (⟨u.id, u.text, u.startTime, u.endTime,
        if inc then u.embedding else List.replicate dim 0⟩ : UttNode))
      (fun u => rfl) mid
  · intro hinc
    subst hinc
    constructor
    · intro u hu
      rw [h1] at hu
      obtain ⟨x, hx, rfl⟩ := List.mem_map.mp hu
      rfl
    · rw [h2]
      rfl
  · intro hinc
    subst hinc
    rw [hro]
    have hmap : s.utterances.map (fun u =>
        (⟨u.id, u.text, u.startTime, u.endTime,
          if true then u.embedding else List.replicate dim 0⟩ : UttNode))
        = s.utterances := List.map_id s.utterances
    rw [hmap]
    rfl

/-- Instantiation of the round-trip theorem at a concrete well-formed
store with every table populated, embedding dimensionality 2 and
embeddings omitted from the dump. -/
theorem export_restore_roundtrip_witness :
    StoreWF wfC5Store ∧
    ((∀ mid, get_meeting_summary
        (restore_graph_dump 2 emptyStore (export_graph_dump wfC5Store false)).1 mid
      = get_meeting_summary wfC5Store mid) ∧
    (false = false →
      (∀ u ∈ (restore_graph_dump 2 emptyStore
          (export_graph_dump wfC5Store false)).1.utterances,
        u.embedding = List.replicate 2 0) ∧
      (restore_graph_dump 2 emptyStore (export_graph_dump wfC5Store false)).2
        = !wfC5Store.utterances.isEmpty) ∧
    (false = true →
      restore_graph_dump 2 emptyStore (export_graph_dump wfC5Store false)
        = (wfC5Store, false))) :=
  ⟨by constructor <;> decide,
   export_restore_roundtrip wfC5Store 2 false (by constructor <;> decide)⟩

/-- The spec's unconditional wording fails on the raw state space: for a
store holding a person whose name is the empty string — a state
`ingest_transcript` creates for a segment with an empty speaker — the
restore loop drops the person and their `SPOKE` edge, so the restored
meeting summary loses that participant. -/
theorem export_restore_claim_false :
    get_meeting_summary
        (restore_graph_dump 2 emptyStore (export_graph_dump cexC5Store false)).1
        (str "m_1")
      ≠ get_meeting_summary cexC5Store (str "m_1") := by
  decide
